import Mathlib

/-!
Verification of the go-service core against its specification.

The models below are shallow embeddings of the Go sources:
  * `GoSvc.Hc`   — `healthcheck.go` (`healthcheckEvaluator`, `HealthReportLogger`)
  * `GoSvc.Reg`  — `registry` package (`Registry.Register/Request/resolve/...`)
  * `GoSvc.Run`  — `Runner` (`Runner.Run/initServices/shutdownServices`)
  * `GoSvc.Prom` — `prom_metrics.go` (`PrometheusMetrics.Update/extractSignature/writeData`)

Go strings are modelled as their character sequences (`List Char`); for the
ASCII data handled here this order and splitting behaviour coincides with
Go's byte-wise operations.  Time is modelled as integer instants, and the
concurrency of the runner is modelled by explicit event times with a fixed
tie-breaking order (completion before signal before timer), documented at
the definitions.  Unbounded recursions of the Go code (the registry's
`resolve` on cyclic provider graphs, `embedsType` on self-embedding types)
are given explicit fuel; running out of fuel is a distinguished error that
corresponds to the divergence of the Go original.

The file is organised as definitions first, theorems second.
-/

namespace GoSvc

abbrev Str := List Char

/-- Character list of a string literal (Go strings are byte strings;
for the ASCII data in this development the two views agree). -/
def strOf (s : String) : Str := s.toList

/-- Byte-wise (here: character-wise) lexicographic `≤`, as used by Go's
string comparison and hence by `sort.Strings` / `sort.Slice` with `<`. -/
def lexLe : Str → Str → Bool
  | [], _ => true
  | _ :: _, [] => false
  | a :: as, b :: bs => if a = b then lexLe as bs else decide (a < b)

theorem lexLe_total (a b : Str) : lexLe a b = true ∨ lexLe b a = true := by
  induction a generalizing b with
  | nil => left; rfl
  | cons x xs ih =>
    cases b with
    | nil => right; rfl
    | cons y ys =>
      by_cases hxy : x = y
      · subst hxy
        rcases ih ys with h | h
        · left; simpa [lexLe] using h
        · right; simpa [lexLe] using h
      · rcases lt_or_gt_of_ne (show x ≠ y from hxy) with h | h
        · left; simp [lexLe, hxy, h]
        · right
          have hyx : y ≠ x := fun e => hxy e.symm
          simp [lexLe, hyx, h]

theorem lexLe_antisymm {a b : Str} (h1 : lexLe a b = true) (h2 : lexLe b a = true) :
    a = b := by
  induction a generalizing b with
  | nil =>
    cases b with
    | nil => rfl
    | cons y ys => simp [lexLe] at h2
  | cons x xs ih =>
    cases b with
    | nil => simp [lexLe] at h1
    | cons y ys =>
      by_cases hxy : x = y
      · subst hxy
        simp only [lexLe, if_pos rfl] at h1 h2
        exact congrArg (x :: ·) (ih h1 h2)
      · have hyx : y ≠ x := fun e => hxy e.symm
        simp only [lexLe, if_neg hxy, decide_eq_true_eq] at h1
        simp only [lexLe, if_neg hyx, decide_eq_true_eq] at h2
        exact absurd (lt_trans h1 h2) (lt_irrefl x)

theorem lexLe_trans {a b c : Str} (h1 : lexLe a b = true) (h2 : lexLe b c = true) :
    lexLe a c = true := by
  induction a generalizing b c with
  | nil => rfl
  | cons x xs ih =>
    cases b with
    | nil => simp [lexLe] at h1
    | cons y ys =>
      cases c with
      | nil => simp [lexLe] at h2
      | cons z zs =>
        by_cases hxy : x = y
        · subst hxy
          simp only [lexLe, if_pos rfl] at h1
          by_cases hyz : x = z
          · subst hyz
            simp only [lexLe, if_pos rfl] at h2 ⊢
            exact ih h1 h2
          · simpa [lexLe, hyz] using h2
        · simp only [lexLe, if_neg hxy, decide_eq_true_eq] at h1
          by_cases hyz : y = z
          · subst hyz
            simp [lexLe, hxy, h1]
          · simp only [lexLe, if_neg hyz, decide_eq_true_eq] at h2
            have hxz : x < z := lt_trans h1 h2
            simp [lexLe, ne_of_lt hxz, hxz]

/-- The `Prop`-valued order used with `List.insertionSort` to model
`sort.Strings` / the string `<` comparator of `sort.Slice`. -/
def strLeRel (a b : Str) : Prop := lexLe a b = true

instance : DecidableRel strLeRel := fun a b => decEq (lexLe a b) true

instance : IsTotal Str strLeRel := ⟨lexLe_total⟩

instance : IsTrans Str strLeRel := ⟨fun _ _ _ => lexLe_trans⟩

instance : IsAntisymm Str strLeRel := ⟨fun _ _ => lexLe_antisymm⟩

/-- `strings.Split` with a one-character separator (the only shape used by
`extractSignature`: separators `" "`, `","`, `"="`). -/
def splitOnChar (sep : Char) : Str → List Str
  | [] => [[]]
  | c :: rest =>
    match splitOnChar sep rest with
    | [] => [[]]
    | h :: t => if c = sep then [] :: h :: t else (c :: h) :: t

/-- `strings.Contains`. -/
def strContains (s sub : Str) : Bool := s.tails.any fun t => sub.isPrefixOf t

/-- `strings.Replace(s, old, new, -1)` for one-character old/new
(`prometheusMetricName` and the newline stripping in `writeData`). -/
def replaceChar (old new : Char) (s : Str) : Str :=
  s.map fun c => if c = old then new else c

/-- Remove every occurrence of a character
(`strings.Replace(failure, "\n", "", -1)`). -/
def removeChar (ch : Char) (s : Str) : Str := s.filter fun c => c ≠ ch

end GoSvc

namespace GoSvc.Hc

/-! ### healthcheck.go — `healthcheckEvaluator` and `HealthReportLogger`

Checks report `Option String`: `none` is a passing (`nil` error) check,
`some msg` a failing one.  Instants are integers; `now.Sub(since)` is
integer subtraction. -/

/-- `HealthCheckResult`: `HealthyFor` duration and `Error` string.
A passing check leaves `error = ""`; a failing check leaves
`healthyFor = 0`, mirroring the zero values of the Go struct literals. -/
structure HealthCheckResult where
  healthyFor : Int
  error : String
deriving DecidableEq, Repr

/-- State of `healthcheckEvaluator`: `healthySince` timestamp and the
`failed` flag.  The metric gauge is returned from `evaluate` instead of
being written to a registry. -/
structure Evaluator where
  healthySince : Int
  failed : Bool
deriving DecidableEq, Repr

/-- `newHealthcheckEvaluator`: `healthySince = now`, `failed = true`
("not evaluated yet"). -/
def newHealthcheckEvaluator (now : Int) : Evaluator :=
  { healthySince := now, failed := true }

/-- `healthcheckEvaluator.evaluate`.  Returns the updated evaluator, the
value written to the duration gauge, and the `HealthCheckResult`. -/
def Evaluator.evaluate (e : Evaluator) (now : Int) (checkErr : Option String) :
    Evaluator × Int × HealthCheckResult :=
  match checkErr with
  | some err =>
    let e' := if !e.failed then { healthySince := now, failed := true } else e
    (e', 0, { healthyFor := 0, error := err })
  | none =>
    let e' := if e.failed then { healthySince := now, failed := false } else e
    let healthyFor := now - e'.healthySince
    (e', healthyFor, { healthyFor := healthyFor, error := "" })

/-! `HealthReportLogger` (identical logic in `CueChecksHandler.HandleChecks`):
`state` is the Go `map[string]string` of last error strings, modelled as an
association list. -/

/-- One emitted log message: `Info("pass")` with the last error, or
`Warn("fail")` with the current error, both tagged with the check name. -/
inductive LogMsg where
  | pass (code lastError : String)
  | fail (code error : String)
deriving DecidableEq, Repr

/-- The check name a message is about. -/
def LogMsg.code : LogMsg → String
  | .pass c _ => c
  | .fail c _ => c

/-- Go map assignment `m[k] = v` on the association-list model. -/
def mapSet (m : List (String × String)) (k v : String) : List (String × String) :=
  match m with
  | [] => [(k, v)]
  | (k', v') :: rest => if k' = k then (k, v) :: rest else (k', v') :: mapSet rest k v

/-- Body of the `for name, res := range report` loop of
`HealthReportLogger.HealthReportPublished` for a single check. -/
def logStep (st : List (String × String)) (name : String) (res : HealthCheckResult) :
    List (String × String) × List LogMsg :=
  let looked := st.lookup name
  let last := match looked with | none => "uninitialized" | some s => s
  let msgs :=
    (if last ≠ "" ∧ res.error = "" then [LogMsg.pass name last] else []) ++
    (if (last = "" ∨ looked = none) ∧ res.error ≠ "" then [LogMsg.fail name res.error] else [])
  (mapSet st name res.error, msgs)

/-- `HealthReportPublished`: the `for name, res := range report` loop, with
the report given as the name→result map in some iteration order.  Returns the
final `state` map and the emitted messages in order. -/
def handleReport (st : List (String × String)) :
    List (String × HealthCheckResult) → List (String × String) × List LogMsg
  | [] => (st, [])
  | e :: rest =>
    let s := logStep st e.1 e.2
    let r := handleReport s.1 rest
    (r.1, s.2 ++ r.2)

end GoSvc.Hc

namespace GoSvc.Reg

/-! ### registry package — `Registry`

`reflect.Type` is modelled by the inductive `Ty`; struct field lists and the
interface-implementation relation are supplied by a `TyEnv` (they are fixed
properties of the Go program's types).  `reflect.Value` is modelled by `Val`:
an abstract non-nil value with an allocation identity, a nil/zero value, or a
parameter struct built field by field.  The `calls` field of a provider is
instrumentation counting constructor invocations (`ctor.Call`); it has no
counterpart in the Go struct and influences nothing. -/

/-- `reflect.Kind`, restricted to what the registry inspects. -/
inductive Kind where
  | kptr | kiface | kstruct | kother
deriving DecidableEq, Repr

/-- A `reflect.Type`: an abstract non-struct type, a pointer type, an
interface type, or a struct type (fields are given by the `TyEnv`). -/
inductive Ty where
  | base (n : Nat)
  | ptr (t : Ty)
  | iface (n : Nat)
  | strct (n : Nat)
deriving DecidableEq, Repr

/-- `reflect.Type.Kind()`. -/
def Ty.kind : Ty → Kind
  | .base _ => .kother
  | .ptr _ => .kptr
  | .iface _ => .kiface
  | .strct _ => .kstruct

/-- The `if t.Kind() == reflect.Ptr { t = t.Elem() }` idiom. -/
def unwrapPtr : Ty → Ty
  | .ptr t => t
  | t => t

/-- The `registry.Params` marker struct; struct id 0 is reserved for it. -/
def paramsTy : Ty := .strct 0

/-- One struct field, as seen through `reflect.StructField`:
its type, whether it is exported (`PkgPath == ""`), whether it is an
anonymous (embedded) field, and the value of its `registry` tag. -/
structure FieldSpec where
  fty : Ty
  exported : Bool
  anonymous : Bool
  tag : Option String
deriving DecidableEq, Repr

/-- The ambient facts about the program's types: fields of each struct id
and the `reflect.Type.Implements` relation. -/
structure TyEnv where
  fieldsOf : Nat → List FieldSpec
  implements : Ty → Ty → Bool

/-- `getRegistryTags`: `(isLazy, allowNil)` from the `registry` struct tag. -/
def getRegistryTags (f : FieldSpec) : Bool × Bool :=
  match f.tag with
  | none => (false, false)
  | some tag =>
    if tag = "" then (false, false)
    else (strContains (strOf tag) (strOf "lazy"), strContains (strOf tag) (strOf "allownil"))

/-- `embedsType`: breadth-first search through anonymous fields.  The Go
loop has no cycle detection (it diverges on self-embedding pointer types);
`fuel` bounds the search here. -/
def embedsType (env : TyEnv) : Nat → List Ty → Ty → Bool
  | 0, _, _ => false
  | _ + 1, [], _ => false
  | fuel + 1, t :: queue, embedded =>
    if t = embedded then true
    else
      match unwrapPtr t with
      | .strct n =>
        embedsType env fuel
          (queue ++ ((env.fieldsOf n).filter (·.anonymous)).map (·.fty)) embedded
      | _ => embedsType env fuel queue embedded

/-- A `reflect.Value`: an abstract non-nil value of a dynamic type with an
allocation identity, the nil/zero value of a type, or a parameter struct
(`reflect.New(t)` + field assignments) given field by field. -/
inductive Val where
  | obj (t : Ty) (id : Nat)
  | nilOf (t : Ty)
  | strukt (n : Nat) (flds : List Val)

/-- `reflect.TypeOf` / `reflect.Value.Type()`. -/
def Val.typeOf : Val → Ty
  | .obj t _ => t
  | .nilOf t => t
  | .strukt n _ => .strct n

/-- `reflect.Value.IsNil()`. -/
def Val.isNil : Val → Bool
  | .nilOf _ => true
  | _ => false

/-- The zero value produced by `reflect.New`: nil for pointer, interface and
other non-struct types, a field-wise zero struct for struct types (`fuel`
bounds the nesting of struct fields). -/
def zeroVal (env : TyEnv) : Nat → Ty → Val
  | _, .base n => .nilOf (.base n)
  | _, .ptr t => .nilOf (.ptr t)
  | _, .iface n => .nilOf (.iface n)
  | 0, .strct n => .strukt n []
  | fuel + 1, .strct n => .strukt n ((env.fieldsOf n).map fun f => zeroVal env fuel f.fty)

/-- A constructor function value: its positional parameter types
(`t.In(i)`), the provided type (`t.Out(0)`; `t.Out(1)` is the error), and
the body, which receives a fresh allocation id and the argument values and
returns the `(T, error)` pair. -/
structure CtorSpec where
  args : List Ty
  ret : Ty
  impl : Nat → List Val → Val × Option String

/-- The `provider` struct.  `inst` is the cached singleton `instance`;
`calls` is proof instrumentation counting constructor invocations. -/
structure Provider where
  requires : List Ty
  expectedParamStruct : Option Ty
  requiresOnInstantiation : List Ty
  provides : Ty
  ctor : CtorSpec
  inst : Option Val
  staticArgs : List Val
  calls : Nat

/-- The `Registry`: the provider map (keyed by the provided type, as an
association list) plus a fresh-id counter for allocation identities. -/
structure RegSt where
  providers : List (Ty × Provider)
  nextId : Nat

/-- The registry's error outcomes, one constructor per `fmt.Errorf`/`panic`
site of the Go code.  `outOfFuel` marks the divergence of `resolve` on
cyclic graphs. -/
inductive RegErr where
  | duplicateProvider (t : Ty)
  | noProvider (t : Ty)
  | noProviderRequired (t : Ty)
  | ambiguousImplementors (t1 t2 ifaceT : Ty)
  | ctorError (msg : String)
  | nilCtorReturn (t : Ty)
  | panicMsg (msg : String)
  | outOfFuel
deriving DecidableEq, Repr

/-- Go map assignment `r.providers[k] = v` on the association-list model. -/
def pset (m : List (Ty × Provider)) (k : Ty) (v : Provider) : List (Ty × Provider) :=
  match m with
  | [] => [(k, v)]
  | (k', v') :: rest => if k' = k then (k, v) :: rest else (k', v') :: pset rest k v

/-- `r.providers[t]`. -/
def RegSt.lookupP (st : RegSt) (t : Ty) : Option Provider := st.providers.lookup t

/-- `Registry.Register`.  A `CtorSpec` is a function with exactly two
results by construction, so the kind/arity error paths of the Go code
cannot arise in the model.  Returns the updated registry. -/
def register (env : TyEnv) (fuel : Nat) (st : RegSt) (ctor : CtorSpec) (args : List Val) :
    RegSt × Except RegErr Unit :=
  let provided := ctor.ret
  match st.lookupP provided with
  | some _ => (st, .error (.duplicateProvider provided))
  | none =>
    let p0 : Provider :=
      { requires := [], expectedParamStruct := none, requiresOnInstantiation := [],
        provides := provided, ctor := ctor, inst := none, staticArgs := args, calls := 0 }
    let p : Provider :=
      match ctor.args with
      | [a] =>
        if embedsType env fuel [a] paramsTy then
          match unwrapPtr a with
          | .strct n =>
            let flds := env.fieldsOf n
            { p0 with
              expectedParamStruct := some a
              requires :=
                (flds.filter fun f =>
                  f.exported && !(f.fty == paramsTy) && !(getRegistryTags f).1).map (·.fty)
              requiresOnInstantiation :=
                (flds.filter fun f => (getRegistryTags f).1).map (·.fty) }
          | _ =>
            -- a non-struct type can only satisfy `embedsType _ paramsTy` by
            -- being `paramsTy` itself, which is a struct; unreachable
            { p0 with expectedParamStruct := some a }
        else { p0 with requires := ctor.args }
      | _ => { p0 with requires := ctor.args }
    ({ st with providers := pset st.providers provided p }, .ok ())

/-- One field of `createParamStruct`: keep unexported fields and the
`Params` marker at their zero value, otherwise set the first collected
value whose type matches (exactly, or by interface satisfaction); a field
with no matching value must be an `allownil`-tagged pointer-to-struct and
stays nil, otherwise the Go code panics. -/
def cpsField (env : TyEnv) (fuel : Nat) (params : List Val) (f : FieldSpec) :
    Except RegErr Val :=
  if f.exported = false then .ok (zeroVal env fuel f.fty)
  else if f.fty = paramsTy then .ok (zeroVal env fuel f.fty)
  else
    match params.find? (fun p =>
        p.typeOf == f.fty || (f.fty.kind == Kind.kiface && env.implements p.typeOf f.fty)) with
    | some v => .ok v
    | none =>
      if (unwrapPtr f.fty).kind ≠ Kind.kstruct then
        .error (.panicMsg "could not find struct param")
      else if (getRegistryTags f).2 = false then
        .error (.panicMsg "could not find struct param")
      else if f.fty.kind ≠ Kind.kptr then
        .error (.panicMsg "only param struct fields of type Pointer can be tagged as allownil")
      else
        .ok (zeroVal env fuel f.fty)

/-- `createParamStruct`: `reflect.New(t)` and assign the fields one by one
(see `cpsField`); any panic of the Go loop is an error value here. -/
def createParamStruct (env : TyEnv) (fuel : Nat) (t : Ty) (params : List Val) :
    Except RegErr Val :=
  match unwrapPtr t with
  | .strct n => ((env.fieldsOf n).mapM (cpsField env fuel params)).map (Val.strukt n)
  | _ => .error (.panicMsg "reflect.New on a non-struct parameter type")

/-- `exactSubSignatureMatch`: the remaining positional parameters of the
constructor match the request-time extra parameters exactly (count, order
and types).  Computed over `Int` as Go's `int` arithmetic. -/
def exactSubSignatureMatch (ctorArgs : List Ty) (idx : Nat) (params : List Val) : Bool :=
  ((ctorArgs.length : Int) - (idx : Int) == (params.length : Int)) &&
    ((ctorArgs.drop idx).zip params).all fun tv => tv.1 == tv.2.typeOf

/-- The `for providedType, provider := range r.providers` loop of
`findProviderForInterface`, carrying the implementor found so far; it
inspects only the provided types (the map keys). -/
def scanImplementors (env : TyEnv) (t : Ty) : List Ty → Option Ty → Except RegErr (Option Ty)
  | [], acc => .ok acc
  | pt :: rest, acc =>
    if env.implements pt t then
      match acc with
      | some impl => .error (.ambiguousImplementors impl pt t)
      | none => scanImplementors env t rest (some pt)
    else scanImplementors env t rest acc

/-- `findProviderForInterface`: scan all providers for an implementor of an
interface type; error if more than one implements it.  Returns the key of
the implementing provider; the result does not depend on the Go map's
iteration order. -/
def findProviderForInterface (env : TyEnv) (st : RegSt) (t : Ty) :
    Except RegErr (Option Ty) :=
  if t.kind ≠ Kind.kiface then .ok none
  else scanImplementors env t (st.providers.map Prod.fst) none

/-- `Registry.instantiate` for the provider stored at `key`: build the
parameter struct if one is expected, call the constructor, propagate its
error, reject a nil result, and cache the instance on success. -/
def instantiate (env : TyEnv) (zfuel : Nat) (st : RegSt) (key : Ty) (params : List Val) :
    RegSt × Except RegErr Unit :=
  match st.lookupP key with
  | none => (st, .error (.noProvider key))
  | some p =>
    let paramsE : Except RegErr (List Val) :=
      match p.expectedParamStruct with
      | some t => (createParamStruct env zfuel t params).map fun v => [v]
      | none => .ok params
    match paramsE with
    | .error e => (st, .error e)
    | .ok params2 =>
      let call := p.ctor.impl st.nextId params2
      let p1 := { p with calls := p.calls + 1 }
      let st1 : RegSt := { providers := pset st.providers key p1, nextId := st.nextId + 1 }
      match call.2 with
      | some msg => (st1, .error (.ctorError msg))
      | none =>
        if call.1.isNil then (st1, .error (.nilCtorReturn key))
        else
          ({ st1 with providers := pset st1.providers key { p1 with inst := some call.1 } },
            .ok ())

/-- The `for idx, t := range p.requires` loop of `resolve`: look the
required type up (directly, then as an interface), recursively resolve it
(`resolveF` is `resolve` at the remaining fuel) and collect its instance; a
type with no provider either matches the extra parameters as an exact
remaining signature (then the loop breaks and the extras are spliced in) or
fails.  Returns the collected constructor arguments (resolved instances
plus filtered extras). -/
def resolveRequiresF (env : TyEnv)
    (resolveF : RegSt → Ty → List Val → RegSt × Except RegErr Unit) :
    RegSt → Provider → List Ty → Nat → List Val → List Val → List Val →
    RegSt × Except RegErr (List Val)
  | st, _, [], _, _, acc, filtered => (st, .ok (acc ++ filtered))
  | st, p, t :: rest, idx, extraParams, acc, filtered =>
    let found : Except RegErr (Option Ty) :=
      match st.lookupP t with
      | some _ => .ok (some t)
      | none => findProviderForInterface env st t
    match found with
    | .error e => (st, .error e)
    | .ok none =>
      if exactSubSignatureMatch p.ctor.args idx extraParams then (st, .ok (acc ++ extraParams))
      else (st, .error (.noProviderRequired t))
    | .ok (some depKey) =>
      match resolveF st depKey extraParams with
      | (st', .error e) => (st', .error e)
      | (st', .ok ()) =>
        match (st'.lookupP depKey).bind (·.inst) with
        | some v =>
          resolveRequiresF env resolveF st' p rest (idx + 1) extraParams (acc ++ [v]) filtered
        | none => (st', .error (.noProvider depKey))

/-- `Registry.resolve` for the provider stored at `key`: return immediately
if an instance is cached, otherwise filter the extra parameters by
`requiresOnInstantiation`, resolve every required type, append the filtered
extras and instantiate.  The recursion through dependencies is bounded by
`fuel` (the Go code diverges on cyclic graphs). -/
def resolve (env : TyEnv) : Nat → RegSt → Ty → List Val → RegSt × Except RegErr Unit
  | 0, st, _, _ => (st, .error .outOfFuel)
  | fuel + 1, st, key, extraParams =>
    match st.lookupP key with
    | none => (st, .error (.noProvider key))
    | some p =>
      if p.inst.isSome then (st, .ok ())
      else
        let filtered := extraParams.flatMap fun param =>
          p.requiresOnInstantiation.filterMap fun r =>
            if r = param.typeOf then some param else none
        match resolveRequiresF env (fun st1 k e => resolve env fuel st1 k e)
            st p p.requires 0 extraParams [] filtered with
        | (st', .error e) => (st', .error e)
        | (st', .ok params) => instantiate env fuel st' key params

/-- The dependency walk as invoked by `resolve` at a given fuel. -/
def resolveRequires (env : TyEnv) (fuel : Nat) :
    RegSt → Provider → List Ty → Nat → List Val → List Val → List Val →
    RegSt × Except RegErr (List Val) :=
  resolveRequiresF env (fun st1 k e => resolve env fuel st1 k e)

/-- `Registry.interfaceFor`: append the provider's static args to the
request parameters, resolve if no instance is cached yet, and return the
cached instance. -/
def interfaceFor (env : TyEnv) (fuel : Nat) (st : RegSt) (key : Ty) (params : List Val) :
    RegSt × Except RegErr Val :=
  match st.lookupP key with
  | none => (st, .error (.noProvider key))
  | some p =>
    match p.inst with
    | some v => (st, .ok v)
    | none =>
      match resolve env fuel st key (params ++ p.staticArgs) with
      | (st', .error e) => (st', .error e)
      | (st', .ok ()) =>
        match (st'.lookupP key).bind (·.inst) with
        | some v => (st', .ok v)
        | none => (st', .error (.noProvider key))

/-- `Registry.providerFor`: the key of the provider serving a requested
type — the type itself if directly registered, otherwise the unique
implementor when the type is an interface. -/
def providerFor (env : TyEnv) (st : RegSt) (t : Ty) : Except RegErr Ty :=
  match st.lookupP t with
  | some _ => .ok t
  | none =>
    match findProviderForInterface env st t with
    | .error e => .error e
    | .ok (some k) => .ok k
    | .ok none => .error (.noProvider t)

/-- `Registry.Request`. -/
def request (env : TyEnv) (fuel : Nat) (st : RegSt) (targetType : Ty) (params : List Val) :
    RegSt × Except RegErr Val :=
  match providerFor env st targetType with
  | .error e => (st, .error e)
  | .ok key => interfaceFor env fuel st key params

/-- Number of recorded constructor invocations for the provider at `key`
(instrumentation read-out). -/
def RegSt.callsOf (st : RegSt) (key : Ty) : Nat :=
  match st.lookupP key with
  | some p => p.calls
  | none => 0

/-- Cached instance of the provider at `key`. -/
def RegSt.instOf (st : RegSt) (key : Ty) : Option Val :=
  (st.lookupP key).bind (·.inst)

/-- The provided types, in map order. -/
def RegSt.keysOf (st : RegSt) : List Ty := st.providers.map Prod.fst

/-- Everything of a provider except the mutable `inst`/`calls`. -/
def Provider.core (p : Provider) :
    List Ty × Option Ty × List Ty × Ty × CtorSpec × List Val :=
  (p.requires, p.expectedParamStruct, p.requiresOnInstantiation, p.provides,
    p.ctor, p.staticArgs)

/-- Two registry states with the same providers up to their cached
instances and call counts (resolution only flips `inst`/`calls`). -/
def coreEq (st st' : RegSt) : Prop :=
  st'.keysOf = st.keysOf
  ∧ ∀ k, (st'.lookupP k).map Provider.core = (st.lookupP k).map Provider.core

/-- The provider key `resolveRequires` recurses into for a required type:
the type itself when directly registered, otherwise its unique interface
implementor. -/
def depKeyOf (env : TyEnv) (st : RegSt) (t : Ty) : Option Ty :=
  match st.lookupP t with
  | some _ => some t
  | none =>
    match findProviderForInterface env st t with
    | .ok (some k) => some k
    | _ => none

/-- Acyclicity of the provider graph, witnessed by a rank function that
strictly decreases along required dependencies.  The spec restricts the
registry to acyclic constructor graphs (cycles diverge, a documented open
issue). -/
def Stratified (env : TyEnv) (st : RegSt) (rank : Ty → Nat) : Prop :=
  ∀ k p, st.lookupP k = some p → ∀ t ∈ p.requires, ∀ k',
    depKeyOf env st t = some k' → rank k' < rank k

/-- Every cached singleton of `st` survives into `st'` with an unchanged
invocation count: resolution never re-runs a constructor whose instance
exists. -/
def Pres (st st' : RegSt) : Prop :=
  ∀ k v, st.instOf k = some v → st'.instOf k = some v ∧ st'.callsOf k = st.callsOf k

/-! Concrete fixtures (small programs against the registry) used by the
witnesses and counterexamples below. -/

/-- A type environment with no struct fields and no interface
implementations. -/
def envEmpty : TyEnv := ⟨fun _ => [], fun _ _ => false⟩

/-- `func() (T1, error)` returning a fresh non-nil value. -/
def ctorBase1 : CtorSpec := ⟨[], .base 1, fun id _ => (.obj (.base 1) id, none)⟩

/-- A registry holding only `ctorBase1`. -/
def regStA : RegSt := (register envEmpty 1 ⟨[], 0⟩ ctorBase1 []).1

/-- `func() (T2, error)` returning `(nil, nil)` — the nil-constructor
scenario. -/
def ctorNil2 : CtorSpec := ⟨[], .base 2, fun _ _ => (.nilOf (.base 2), none)⟩

/-- A registry holding only `ctorNil2`. -/
def regStNil : RegSt := (register envEmpty 1 ⟨[], 0⟩ ctorNil2 []).1

/-- The `*A` dependency type of the lazy-parameter scenario. -/
def tyA : Ty := .ptr (.strct 1)

/-- The `*P` params-struct type (`P` embeds `Params` and has fields
`A : tyA` and a `registry`-tagged `B : tyB`). -/
def tyP : Ty := .ptr (.strct 2)

/-- The pointer-to-struct type of the tagged field `B`. -/
def tyB : Ty := .ptr (.strct 3)

/-- The provided type of the params-struct constructor. -/
def tyC : Ty := .ptr (.strct 4)

/-- Types of the lazy-parameter scenario: struct 2 is the params struct,
whose field `B` carries the given `registry` tag. -/
def envC4 (tag : String) : TyEnv :=
  ⟨fun n =>
    if n = 2 then
      [⟨paramsTy, true, true, none⟩, ⟨tyA, true, false, none⟩, ⟨tyB, true, false, some tag⟩]
    else [],
   fun _ _ => false⟩

/-- `func() (*A, error)`. -/
def ctorA4 : CtorSpec := ⟨[], tyA, fun id _ => (.obj tyA id, none)⟩

/-- `func(p *P) (*C, error)` echoing its params struct as the result, so
the value the constructor received is observable. -/
def ctorP4 : CtorSpec := ⟨[tyP], tyC, fun _ ps => (ps.headD (.nilOf tyC), none)⟩

/-- Registry of the lazy-parameter scenario: `ctorA4` and `ctorP4`
registered, with field `B` carrying the given tag. -/
def regC4 (tag : String) : RegSt :=
  (register (envC4 tag) 9 (register (envC4 tag) 9 ⟨[], 0⟩ ctorA4 []).1 ctorP4 []).1

end GoSvc.Reg

namespace GoSvc.Run

/-! ### Runner — `Runner.Run`, `initServices`, `shutdownServices`

Time is modelled by natural-number instants measured from the start of the
relevant phase.  Each service's `Init`/`Shutdown` runs on a background
goroutine raced against timers and the signal channel; the model computes
which `select` branch becomes ready first, breaking ties in favour of
completion, then the signal, then the timer (at equal instants the Go
`select` chooses randomly; no claim depends on a tie). -/

/-- A service added to the runner: its registered name, how long `Init`
takes and whether it succeeds (`none`) or fails with a message, and how
long `Shutdown(sig)` takes. -/
structure Svc where
  name : String
  initTime : Nat
  initRes : Option String
  shutdownTime : Nat

/-- `RunnerConfig`; `hasPostShutdown` models a non-nil `PostShutdown`
callback. -/
structure RunnerConfig where
  shutdownTimeout : Nat
  initTimeout : Nat
  onInitSignalTimeout : Nat
  hasPostShutdown : Bool

/-- The runner's error values, one constructor per construction site:
the two `newTimeoutError` sites, a service's own `Init` error (raw, as
returned through the signal path), its `errors.Wrapf` form from the normal
path, and `errors.Wrap(err, "error during startup")` applied by `Run`. -/
inductive RunErr where
  | timeoutInit (service : String) (timeout : Nat)
  | timeoutShutdown (service : String) (timeout : Nat)
  | svcErr (msg : String)
  | initFailed (service msg : String)
  | startupWrap (e : RunErr)
deriving DecidableEq, Repr

/-- `isTimeoutError` on an unwrapped error (`errors.Cause` looks through
the wrap). -/
def isTimeoutErrCore : RunErr → Bool
  | .timeoutInit _ _ => true
  | .timeoutShutdown _ _ => true
  | .startupWrap e => isTimeoutErrCore e
  | .svcErr _ => false
  | .initFailed _ _ => false

/-- `isTimeoutError`. -/
def isTimeoutError : Option RunErr → Bool
  | none => false
  | some e => isTimeoutErrCore e

/-- Result of `initServices`: the successfully initialised services in
order, whether a signal was consumed during init, the error, the names
whose `Init` was invoked, and the instant the phase ended. -/
structure InitResult where
  inited : List Svc
  sig : Bool
  err : Option RunErr
  initTrace : List String
  endTime : Nat

/-- The `for _, s := range r.services` loop of `initServices`.  For the
service started at instant `t`: its `Init` completes at `t + initTime`,
the signal becomes selectable at `max t sigAt`, and the timer (started at
instant 0 with `InitTimeout`) at `max t initTimeout`.  On a signal the
in-flight `Init` is granted `onInitSignalTimeout` more; if it still has
not finished it is abandoned with a nil error ("ignoring"). -/
def initLoop (cfg : RunnerConfig) (sigAt : Nat) :
    List Svc → Nat → List Svc → List String → InitResult
  | [], t, inited, trace => ⟨inited, false, none, trace, t⟩
  | s :: rest, t, inited, trace =>
    let trace' := trace ++ [s.name]
    let tc := t + s.initTime
    let tS := max t sigAt
    let tT := max t cfg.initTimeout
    if tc ≤ tS ∧ tc ≤ tT then
      match s.initRes with
      | some msg => ⟨inited, false, some (.initFailed s.name msg), trace', tc⟩
      | none => initLoop cfg sigAt rest tc (inited ++ [s]) trace'
    else if tS ≤ tT then
      if tc ≤ tS + cfg.onInitSignalTimeout then
        match s.initRes with
        | some msg => ⟨inited, true, some (.svcErr msg), trace', tc⟩
        | none => ⟨inited ++ [s], true, none, trace', tc⟩
      else ⟨inited, true, none, trace', tS + cfg.onInitSignalTimeout⟩
    else ⟨inited, false, some (.timeoutInit s.name cfg.initTimeout), trace', tT⟩

/-- `initServices`. -/
def initServices (cfg : RunnerConfig) (sigAt : Nat) (services : List Svc) : InitResult :=
  initLoop cfg sigAt services 0 [] []

/-- The `for _, shuttingDown := range services` loop of
`shutdownServices`, with the aggregate timer at `shutdownTimeout` from the
phase start (instant 0).  Returns the names whose `Shutdown` was invoked,
and the timeout error if the timer fired before some `Shutdown`
returned. -/
def shutdownLoop (cfg : RunnerConfig) :
    List Svc → Nat → List String → List String × Option RunErr
  | [], _, invoked => (invoked, none)
  | s :: rest, t, invoked =>
    let tc := t + s.shutdownTime
    let tT := max t cfg.shutdownTimeout
    if tc ≤ tT then shutdownLoop cfg rest tc (invoked ++ [s.name])
    else (invoked ++ [s.name], some (.timeoutShutdown s.name cfg.shutdownTimeout))

/-- `shutdownServices` (the caller passes the reversed `inited` list). -/
def shutdownServices (cfg : RunnerConfig) (services : List Svc) :
    List String × Option RunErr :=
  shutdownLoop cfg services 0 []

/-- The observable outcome of `Runner.Run`: the returned error, the `Init`
invocation order, the successfully initialised services, the `Shutdown`
invocation order, and the argument `PostShutdown` was invoked with (`none`
when no callback is configured). -/
structure RunResult where
  err : Option RunErr
  initTrace : List String
  initedNames : List String
  shutdownTrace : List String
  postShutdownArg : Option (Option RunErr)
  sigDuringInit : Bool

/-- `Runner.Run`: initialise in order; on an init error return it wrapped
("error during startup"); otherwise wait for the signal; the deferred
block shuts the initialised services down in reverse order, invokes
`PostShutdown` with the shutdown error, and substitutes the shutdown error
when the init phase produced none. -/
def run (cfg : RunnerConfig) (sigAt : Nat) (services : List Svc) : RunResult :=
  let ir := initServices cfg sigAt services
  let err0 : Option RunErr := ir.err.map .startupWrap
  let sd := shutdownServices cfg ir.inited.reverse
  let finalErr : Option RunErr := match err0 with | some e => some e | none => sd.2
  { err := finalErr
    initTrace := ir.initTrace
    initedNames := ir.inited.map (·.name)
    shutdownTrace := sd.1
    postShutdownArg := if cfg.hasPostShutdown then some sd.2 else none
    sigDuringInit := ir.sig }

/-- Witness fixture: a two-service list whose first service shuts down
slowly. -/
def svcsW : List Svc := [⟨"s1", 1, none, 10⟩, ⟨"s2", 1, none, 2⟩]

/-- Witness config whose shutdown budget the slow service exceeds. -/
def cfgW : RunnerConfig := ⟨5, 100, 10, true⟩

/-- Witness config with a sufficient shutdown budget. -/
def cfg2W : RunnerConfig := ⟨20, 100, 10, true⟩

end GoSvc.Run

namespace GoSvc.Prom

/-! ### PrometheusMetrics — `prom_metrics.go`

`Update` reads the bound registry through `Each`, whose iteration order is
a Go map order; the models take the registry as a list of
`(raw name, metric)` entries in iteration order.  Two registry models are
used: a restricted one (`MetricValue`/`update`) over counters, meters and
integer gauges for the `writeData` determinism analysis, and a full one
(`MetricE`/`updateE`) further down covering every case of `Update`'s
switch — float gauges, healthchecks, histograms (bucketed or not) and
timers included — for the failure-handling analysis.  `sort.Strings` and
the `sort.Slice` comparator on sample names are modelled by a stable
insertion sort over `strLeRel`; on tied keys Go's `sort.Slice` leaves the
order unspecified while the model keeps iteration order. -/

/-- A registry entry's value: `metrics.Counter`, `metrics.Meter` (both
exported via `addCounter` from their `Count()`), or an integer
`metrics.Gauge`. -/
inductive MetricValue where
  | counter (v : Int)
  | meter (v : Int)
  | gauge (v : Int)
deriving DecidableEq, Repr

/-- A registry entry: raw composite name and metric. -/
abbrev Entry := Str × MetricValue

def isAsciiLower (c : Char) : Bool := decide ('a' ≤ c) && decide (c ≤ 'z')

def isAsciiUpper (c : Char) : Bool := decide ('A' ≤ c) && decide (c ≤ 'Z')

def isAsciiDigit (c : Char) : Bool := decide ('0' ≤ c) && decide (c ≤ '9')

/-- `promMetricRe`: the `[a-zA-Z_:][a-zA-Z0-9_:]*` anchored regex. -/
def promMetricRe : Str → Bool
  | [] => false
  | c :: rest =>
    (isAsciiLower c || isAsciiUpper c || c == '_' || c == ':')
      && rest.all fun d =>
        isAsciiLower d || isAsciiUpper d || isAsciiDigit d || d == '_' || d == ':'

/-- `promMetricLabelRe`: the `[a-zA-Z0-9_]*` anchored regex. -/
def promMetricLabelRe (s : Str) : Bool :=
  s.all fun d => isAsciiLower d || isAsciiUpper d || isAsciiDigit d || d == '_'

/-- `promMetricValueRe`: anchored over the class `a-zA-Z0-9_:\-\+\./`. -/
def promMetricValueRe (s : Str) : Bool :=
  s.all fun d =>
    isAsciiLower d || isAsciiUpper d || isAsciiDigit d || d == '_' || d == ':'
      || d == '-' || d == '+' || d == '.' || d == '/'

/-- `prometheusMetricName`: replace every `-` by `_`. -/
def prometheusMetricName (s : Str) : Str := replaceChar '-' '_' s

/-- `fmt.Sprint` of an `int64` value. -/
def intToStr (i : Int) : Str :=
  if i < 0 then '-' :: Nat.toDigits 10 i.natAbs else Nat.toDigits 10 i.natAbs

/-- Decimal rendering of a length (`%d` in the multierror header). -/
def natToStr (n : Nat) : Str := Nat.toDigits 10 n

/-- The `"%s"` quoting used in the failure messages. -/
def quoteStr (s : Str) : Str := '"' :: (s ++ ['"'])

/-- `github.com/hashicorp/go-multierror`'s default `ListFormatFunc`
rendering of the accumulated errors. -/
def multierrorStr (es : List Str) : Str :=
  match es with
  | [e] => strOf "1 error occurred:\n\t* " ++ e ++ strOf "\n\n"
  | _ =>
    natToStr es.length ++ strOf " errors occurred:\n\t"
      ++ List.intercalate (strOf "\n\t") (es.map fun e => strOf "* " ++ e)
      ++ strOf "\n\n"

/-- Result of `extractSignature`: the sanitised name, the rendered label
string, and the error (`none` for a nil Go error). -/
structure SigResult where
  name : Str
  labels : Str
  err : Option Str
deriving DecidableEq, Repr

/-- The label loop of `extractSignature`: early return (empty name and
labels) on a malformed label or a bad label name; a bad label value is
appended to the multierror and the label skipped; a valid label appends
`,key="value"` with the key sanitised. -/
def extractLabels (raw name : Str) : List Str → Str → List Str → SigResult
  | [], labels, fails =>
    ⟨name, labels, if fails.isEmpty then none else some (multierrorStr fails)⟩
  | l :: rest, labels, fails =>
    match splitOnChar '=' l with
    | [k, v] =>
      if promMetricLabelRe k then
        if promMetricValueRe v then
          extractLabels raw name rest
            (labels ++ ',' :: (prometheusMetricName k ++ '=' :: quoteStr v)) fails
        else
          extractLabels raw name rest labels
            (fails ++ [strOf "bad label value " ++ quoteStr l
              ++ strOf " in metric " ++ quoteStr raw])
      else
        ⟨[], [], some (strOf "bad label name " ++ quoteStr l
          ++ strOf " in metric " ++ quoteStr raw)⟩
    | _ =>
      ⟨[], [], some (strOf "bad label " ++ quoteStr l
        ++ strOf " in metric " ++ quoteStr raw)⟩

/-- `extractSignature`. -/
def extractSignature (raw : Str) : SigResult :=
  match splitOnChar ' ' raw with
  | [first, second] =>
    let comps := splitOnChar ',' first
    let name := prometheusMetricName (comps.headD [] ++ '_' :: second)
    if promMetricRe name then extractLabels raw name comps.tail [] []
    else
      ⟨[], [], some (strOf "bad metric name " ++ quoteStr name
        ++ strOf " in metric " ++ quoteStr raw)⟩
  | _ => ⟨[], [], some (strOf "bad metric signature " ++ quoteStr raw)⟩

/-- `fullName`: `name` followed by the label set in braces. -/
def fullName (nameLabel name labels : Str) : Str :=
  name ++ '\x7b' :: (nameLabel ++ labels) ++ ['\x7d']

/-- The `# TYPE` key the `Each` callback writes for an entry (counters and
meters go through `addCounter`, which suffixes `_total`). -/
def bindOf (e : Entry) : Str :=
  match e.2 with
  | .counter _ => (extractSignature e.1).name ++ strOf "_total"
  | .meter _ => (extractSignature e.1).name ++ strOf "_total"
  | .gauge _ => (extractSignature e.1).name

/-- The type string written for an entry. -/
def typOf (e : Entry) : Str :=
  match e.2 with
  | .counter _ => strOf "counter"
  | .meter _ => strOf "counter"
  | .gauge _ => strOf "gauge"

/-- The rendered sample value of an entry. -/
def valStrOf (e : Entry) : Str :=
  match e.2 with
  | .counter n => intToStr n
  | .meter n => intToStr n
  | .gauge n => intToStr n

/-- The `(fullname, value)` sample the callback appends for an entry
(`addV`); note that the callback runs even when `extractSignature`
errored, with whatever name and labels it returned. -/
def pairOf (nameLabel : Str) (e : Entry) : Str × Str :=
  (fullName nameLabel (bindOf e) (extractSignature e.1).labels, valStrOf e)

/-- The failure strings an entry contributes. -/
def failsOf (e : Entry) : List Str := (extractSignature e.1).err.toList

/-- Go map assignment `t[k] = val` on an association list (overwrite in
place, append new keys). -/
def tset (t : List (Str × Str)) (k val : Str) : List (Str × Str) :=
  match t with
  | [] => [(k, val)]
  | (k0, v0) :: rest => if k0 = k then (k, val) :: rest else (k0, v0) :: tset rest k val

/-- `v[k] = append(v[k], pr)` on an association list. -/
def vadd (v : List (Str × List (Str × Str))) (k : Str) (pr : Str × Str) :
    List (Str × List (Str × Str)) :=
  match v with
  | [] => [(k, [pr])]
  | (k0, l0) :: rest =>
    if k0 = k then (k0, l0 ++ [pr]) :: rest else (k0, l0) :: vadd rest k pr

/-- The `failures` slice accumulated by the `Each` callback, in iteration
order. -/
def failures (es : List Entry) : List Str := es.flatMap failsOf

/-- The `mTypes` map after the `Each` loop (fold over iteration order). -/
def tcol : List Entry → List (Str × Str) → List (Str × Str)
  | [], t => t
  | e :: rest, t => tcol rest (tset t (bindOf e) (typOf e))

/-- The `mValues` map after the `Each` loop. -/
def vcol (nameLabel : Str) :
    List Entry → List (Str × List (Str × Str)) → List (Str × List (Str × Str))
  | [], v => v
  | e :: rest, v => vcol nameLabel rest (vadd v (bindOf e) (pairOf nameLabel e))

/-- `v[name]` lookup. -/
def vget (v : List (Str × List (Str × Str))) (k : Str) : List (Str × Str) :=
  (List.lookup k v).getD []

/-- `t[name]` lookup. -/
def tget (t : List (Str × Str)) (k : Str) : Str := (List.lookup k t).getD []

/-- The `sort.Slice` comparator of `writeData`: order samples by
fullname. -/
def pairLe (a b : Str × Str) : Prop := strLeRel a.1 b.1

instance : DecidableRel pairLe := fun a b => (inferInstance : Decidable (strLeRel a.1 b.1))

instance : IsTotal (Str × Str) pairLe := ⟨fun a b => lexLe_total a.1 b.1⟩

instance : IsTrans (Str × Str) pairLe := ⟨fun _ _ _ => lexLe_trans⟩

/-- One metric block of `writeData`: blank line, `# TYPE` header, then the
bind's samples sorted by fullname. -/
def blockOf (t : List (Str × Str)) (v : List (Str × List (Str × Str))) (name : Str) :
    Str :=
  strOf "\n# TYPE " ++ name ++ ' ' :: tget t name ++ '\n'
    :: ((List.insertionSort pairLe (vget v name)).map
        fun pr => pr.1 ++ ' ' :: pr.2 ++ ['\n']).flatten

/-- A `# ERROR` line: newlines stripped from the failure. -/
def errLineOf (f : Str) : Str := strOf "# ERROR " ++ removeChar '\n' f ++ ['\n']

/-- Total number of samples held in `mValues`. -/
def valuesSize (v : List (Str × List (Str × Str))) : Nat :=
  (v.map fun p => p.2.length).sum

/-- `writeData`: the sorted `# ERROR` lines, then the per-name blocks in
sorted name order; the returned error is `fmt.Errorf("%v", failures)` over
the (in-place sorted) failures slice when any failure occurred. -/
def writeData (fails : List Str) (t : List (Str × Str))
    (v : List (Str × List (Str × Str))) : Str × Option Str :=
  let sortedFails := List.insertionSort strLeRel fails
  ((sortedFails.map errLineOf).flatten
     ++ ((List.insertionSort strLeRel (t.map Prod.fst)).map (blockOf t v)).flatten,
   if fails.isEmpty then none
   else some ('[' :: (List.intercalate [' '] sortedFails ++ [']'])))

/-- `Update` on a registry holding counters, meters and integer gauges,
iterated in list order: collect failures, types and values, then write. -/
def update (nameLabel : Str) (es : List Entry) : Str × Option Str :=
  writeData (failures es) (tcol es []) (vcol nameLabel es [])

/-- The service label written by `NewPrometheusMetrics` for a service
named `test`. -/
def nl0 : Str := strOf "service=\"test\""

/-- Two iteration orders of the same two-counter registry whose sanitised
fullnames collide. -/
def esTieA : List Entry := [(strOf "app c-x", .counter 1), (strOf "app c_x", .counter 2)]

/-- The other iteration order of `esTieA`'s registry. -/
def esTieB : List Entry := [(strOf "app c_x", .counter 2), (strOf "app c-x", .counter 1)]

/-- A registry with distinct fullnames, in one iteration order. -/
def esOkA : List Entry := [(strOf "app c", .counter 1), (strOf "app g", .gauge 2)]

/-- The other iteration order of `esOkA`'s registry. -/
def esOkB : List Entry := [(strOf "app g", .gauge 2), (strOf "app c", .counter 1)]

/-- Statistics of a `metricsSampler` snapshot: `Count()`, `Sum()`,
`Min()`, `Max()` are `int64`; `Mean()`, `StdDev()` and the five
`Percentiles` are `float64` values carried by their `fmt.Sprint`
renderings. -/
structure SamplerData where
  count : Int
  sum : Int
  minV : Int
  maxV : Int
  mean : Str
  stddev : Str
  p50 : Str
  p75 : Str
  p95 : Str
  p99 : Str
  p999 : Str
deriving DecidableEq, Repr

/-- Data of an `lft_sample.SampleWithBuckets`: the zipped
`BucketsAndValues()` arrays (bucket boundaries carried by their `%f`
renderings), the trailing `values[len(buckets)]` entry, and the bucket
sampler's `Count()` and `Sum()`. -/
structure BucketsData where
  bucketVals : List (Str × Int)
  infV : Int
  count : Int
  sum : Int
deriving DecidableEq, Repr

/-- A registry entry's value covering every case of `Update`'s switch:
counters and meters (exported via `addCounter` from their `Count()`),
integer gauges, float gauges (value carried by its `fmt.Sprint`
rendering), healthchecks (whether `Error()` returned non-nil),
histograms (optional bucket sample, plus the snapshot) and timers
(snapshot only). -/
inductive MetricE where
  | counter (v : Int)
  | meter (v : Int)
  | gauge (v : Int)
  | gaugeF (v : Str)
  | healthcheck (hasErr : Bool)
  | histogram (buckets : Option BucketsData) (sn : SamplerData)
  | timer (sn : SamplerData)
deriving DecidableEq, Repr

/-- A registry entry of the full model. -/
abbrev EntryE := Str × MetricE

/-- `addGauge` acting on the `(mTypes, mValues)` pair. -/
def addGaugeE (nl : Str)
    (tv : List (Str × Str) × List (Str × List (Str × Str)))
    (bind labels val : Str) :
    List (Str × Str) × List (Str × List (Str × Str)) :=
  (tset tv.1 bind (strOf "gauge"),
   vadd tv.2 bind (fullName nl bind labels, val))

/-- `addCounter` acting on the `(mTypes, mValues)` pair. -/
def addCounterE (nl : Str)
    (tv : List (Str × Str) × List (Str × List (Str × Str)))
    (name labels : Str) (value : Int) :
    List (Str × Str) × List (Str × List (Str × Str)) :=
  (tset tv.1 (name ++ strOf "_total") (strOf "counter"),
   vadd tv.2 (name ++ strOf "_total")
     (fullName nl (name ++ strOf "_total") labels, intToStr value))

/-- `addSummary`: the summary type, seven samples under the summary bind
(count, sum, five quantiles), then the four derived gauges. -/
def addSummaryE (nl : Str)
    (tv : List (Str × Str) × List (Str × List (Str × Str)))
    (name labels : Str) (sn : SamplerData) :
    List (Str × Str) × List (Str × List (Str × Str)) :=
  let t1 := tset tv.1 name (strOf "summary")
  let v1 := vadd tv.2 name (fullName nl (name ++ strOf "_count") labels, intToStr sn.count)
  let v2 := vadd v1 name (fullName nl (name ++ strOf "_sum") labels, intToStr sn.sum)
  let v3 := vadd v2 name (fullName nl name (labels ++ strOf ",quantile=\"0.5\""), sn.p50)
  let v4 := vadd v3 name (fullName nl name (labels ++ strOf ",quantile=\"0.75\""), sn.p75)
  let v5 := vadd v4 name (fullName nl name (labels ++ strOf ",quantile=\"0.95\""), sn.p95)
  let v6 := vadd v5 name (fullName nl name (labels ++ strOf ",quantile=\"0.99\""), sn.p99)
  let v7 := vadd v6 name (fullName nl name (labels ++ strOf ",quantile=\"0.999\""), sn.p999)
  let tv1 := addGaugeE nl (t1, v7) (name ++ strOf "_min") labels (intToStr sn.minV)
  let tv2 := addGaugeE nl tv1 (name ++ strOf "_max") labels (intToStr sn.maxV)
  let tv3 := addGaugeE nl tv2 (name ++ strOf "_mean") labels sn.mean
  addGaugeE nl tv3 (name ++ strOf "_stddev") labels sn.stddev

/-- The sample a bucket of `addBucketHistogramSummary`'s loop appends. -/
def bucketPair (nl nameB labels : Str) (pr : Str × Int) : Str × Str :=
  (fullName nl nameB (labels ++ strOf ",le=\"" ++ pr.1 ++ strOf "\""), intToStr pr.2)

/-- `addBucketHistogramSummary`: the histogram type under the `_buckets`
bind, one sample per bucket, the `+Inf` sample, then count and sum. -/
def addBucketsE (nl : Str)
    (tv : List (Str × Str) × List (Str × List (Str × Str)))
    (name labels : Str) (bd : BucketsData) :
    List (Str × Str) × List (Str × List (Str × Str)) :=
  let nameB := name ++ strOf "_buckets"
  let t1 := tset tv.1 nameB (strOf "histogram")
  let v1 := bd.bucketVals.foldl (fun v pr => vadd v nameB (bucketPair nl nameB labels pr)) tv.2
  let v2 := vadd v1 nameB (fullName nl nameB (labels ++ strOf ",le=\"+Inf\""), intToStr bd.infV)
  let v3 := vadd v2 nameB (fullName nl (nameB ++ strOf "_count") labels, intToStr bd.count)
  let v4 := vadd v3 nameB (fullName nl (nameB ++ strOf "_sum") labels, intToStr bd.sum)
  (t1, v4)

/-- One iteration of the `Each` callback over the full switch: the
signature is extracted first (its failure was already collected by then),
and the switch always runs with the returned name and labels.  A
histogram writes its bucket sample when present and its summary when the
snapshot count is positive; a zero-count timer writes nothing. -/
def updateEntryE (nl : Str)
    (tv : List (Str × Str) × List (Str × List (Str × Str))) (e : EntryE) :
    List (Str × Str) × List (Str × List (Str × Str)) :=
  let sig := extractSignature e.1
  match e.2 with
  | .counter n => addCounterE nl tv sig.name sig.labels n
  | .meter n => addCounterE nl tv sig.name sig.labels n
  | .gauge n => addGaugeE nl tv sig.name sig.labels (intToStr n)
  | .gaugeF s => addGaugeE nl tv sig.name sig.labels s
  | .healthcheck he =>
    addGaugeE nl tv sig.name sig.labels (if he then strOf "0" else strOf "1")
  | .histogram b sn =>
    let tv1 := match b with
      | some bd => addBucketsE nl tv sig.name sig.labels bd
      | none => tv
    if 0 < sn.count then addSummaryE nl tv1 sig.name sig.labels sn else tv1
  | .timer sn =>
    if sn.count = 0 then tv else addSummaryE nl tv sig.name sig.labels sn

/-- The failure strings an entry of the full model contributes
(`extractSignature` runs before the switch, so a sample-less entry still
reports its failure). -/
def failsOfE (e : EntryE) : List Str := (extractSignature e.1).err.toList

/-- The `failures` slice over the full model. -/
def failuresE (es : List EntryE) : List Str := es.flatMap failsOfE

/-- The `(mTypes, mValues)` pair after the full `Each` loop. -/
def collectE (nl : Str) :
    List EntryE → List (Str × Str) × List (Str × List (Str × Str))
      → List (Str × Str) × List (Str × List (Str × Str))
  | [], tv => tv
  | e :: rest, tv => collectE nl rest (updateEntryE nl tv e)

/-- `Update` over the full switch. -/
def updateE (nl : Str) (es : List EntryE) : Str × Option Str :=
  writeData (failuresE es) (collectE nl es ([], [])).1 (collectE nl es ([], [])).2

/-- Number of samples the switch adds for an entry: one for the scalar
kinds; a histogram adds one line per bucket plus `+Inf`, count and sum
when bucketed, and eleven summary samples when its snapshot count is
positive; a zero-count timer adds none. -/
def samplesOf (e : EntryE) : Nat :=
  match e.2 with
  | .counter _ => 1
  | .meter _ => 1
  | .gauge _ => 1
  | .gaugeF _ => 1
  | .healthcheck _ => 1
  | .histogram b sn =>
    (match b with
     | some bd => bd.bucketVals.length + 3
     | none => 0) + (if 0 < sn.count then 11 else 0)
  | .timer sn => if sn.count = 0 then 0 else 11

/-- A full-model registry whose only metric has an invalid composite
name. -/
def esBadNameE : List EntryE := [(strOf "app c!", .counter 5)]

/-- An all-zero sampler snapshot. -/
def snZero : SamplerData :=
  ⟨0, 0, 0, 0, strOf "0", strOf "0", strOf "0", strOf "0", strOf "0", strOf "0", strOf "0"⟩

/-- A full-model registry with a bad-label-value counter, a valid gauge
and a zero-count timer. -/
def esMixedE : List EntryE :=
  [(strOf "app,l=x! c", .counter 3), (strOf "app g", .gauge 7),
   (strOf "app t", .timer snZero)]

end GoSvc.Prom

namespace GoSvc.Hc

/-! ### Theorems about the health-check models -/

theorem lookup_mapSet_self (m : List (String × String)) (k v : String) :
    (mapSet m k v).lookup k = some v := by
  induction m with
  | nil => simp [mapSet]
  | cons p rest ih =>
    by_cases h : p.1 = k
    · simp [mapSet, h]
    · simp only [mapSet, if_neg h]
      simpa [List.lookup, (by simpa using Ne.symm h : (k == p.1) = false)] using ih

theorem lookup_mapSet_ne (m : List (String × String)) {k k' : String} (h : k' ≠ k)
    (v : String) : (mapSet m k v).lookup k' = m.lookup k' := by
  induction m with
  | nil => simp [mapSet, List.lookup, (by simpa using h : (k' == k) = false)]
  | cons p rest ih =>
    by_cases hp : p.1 = k
    · subst hp
      simp [mapSet, List.lookup, (by simpa using h : (k' == p.1) = false)]
    · simp only [mapSet, if_neg hp]
      by_cases hk' : k' = p.1
      · simp [List.lookup, hk']
      · simpa [List.lookup, (by simpa using hk' : (k' == p.1) = false)] using ih

theorem handleReport_cons (st : List (String × String)) (e : String × HealthCheckResult)
    (rest : List (String × HealthCheckResult)) :
    handleReport st (e :: rest)
    = ((handleReport (logStep st e.1 e.2).1 rest).1,
       (logStep st e.1 e.2).2 ++ (handleReport (logStep st e.1 e.2).1 rest).2) := rfl

theorem logStep_code (st : List (String × String)) (name : String)
    (res : HealthCheckResult) (m : LogMsg) (hm : m ∈ (logStep st name res).2) :
    m.code = name := by
  simp only [logStep] at hm
  rcases List.mem_append.1 hm with h' | h' <;> (split at h' <;> simp_all [LogMsg.code])

theorem handleReport_code_mem (st : List (String × String))
    (report : List (String × HealthCheckResult)) (m : LogMsg)
    (hm : m ∈ (handleReport st report).2) : m.code ∈ report.map Prod.fst := by
  induction report generalizing st with
  | nil => simp [handleReport] at hm
  | cons e rest ih =>
    rw [handleReport_cons] at hm
    rcases List.mem_append.1 hm with h | h
    · simp [logStep_code st e.1 e.2 m h]
    · simp only [List.map_cons]
      exact List.mem_cons_of_mem _ (ih _ h)

/-- **C8.** For consecutive reports, the logging handler emits a message for a
check exactly when its pass/fail status differs from the previous tick's
recorded status (`prev = ""` means it passed last tick); with an unchanged
status nothing is emitted for that check. -/
theorem health_report_logger_transition_only
    (st : List (String × String)) (report : List (String × HealthCheckResult))
    (name prev : String) (res : HealthCheckResult)
    (hnd : (report.map Prod.fst).Nodup)
    (hst : st.lookup name = some prev)
    (hmem : (name, res) ∈ report) :
    ((handleReport st report).2.filter (fun m => m.code == name)) = []
      ↔ ((prev = "") ↔ (res.error = "")) := by
  induction report generalizing st with
  | nil => simp at hmem
  | cons e rest ih =>
    rw [handleReport_cons, List.filter_append]
    rcases List.mem_cons.1 hmem with he | hrest
    · -- the head entry is the check under scrutiny
      subst he
      have hnotin : name ∉ rest.map Prod.fst := by
        simpa using (List.nodup_cons.1 hnd).1
      have hrestEmpty :
          ((handleReport (logStep st name res).1 rest).2.filter
            (fun m => m.code == name)) = [] := by
        apply List.filter_eq_nil_iff.2
        intro m hm
        have := handleReport_code_mem _ _ _ hm
        simp only [beq_iff_eq]
        intro hcode
        exact hnotin (hcode ▸ this)
      rw [hrestEmpty, List.append_nil]
      simp only [logStep, hst]
      by_cases hp : prev = "" <;> by_cases hr : res.error = "" <;>
        simp [hp, hr, LogMsg.code]
    · -- the head entry concerns a different check
      have hne : e.1 ≠ name := by
        intro heq
        have : name ∈ rest.map Prod.fst := List.mem_map_of_mem Prod.fst hrest
        exact (List.nodup_cons.1 hnd).1 (heq ▸ this)
      have hheadEmpty :
          ((logStep st e.1 e.2).2.filter (fun m => m.code == name)) = [] := by
        apply List.filter_eq_nil_iff.2
        intro m hm
        simpa [logStep_code st e.1 e.2 m hm] using hne
      rw [hheadEmpty, List.nil_append]
      have hst' : (logStep st e.1 e.2).1.lookup name = some prev := by
        simpa [logStep] using (lookup_mapSet_ne st (Ne.symm hne) e.2.error).symm ▸ hst
      exact ih (logStep st e.1 e.2).1 (List.nodup_cons.1 hnd).2 hst' hrest

/-- Witness for `health_report_logger_transition_only` at a concrete input:
a check that was failing and is still failing produces no message. -/
theorem health_report_logger_transition_only_witness :
    ((handleReport [("db", "boom")] [("db", ⟨0, "down"⟩)]).2.filter
      (fun m => m.code == "db")) = [] := by
  have h := health_report_logger_transition_only [("db", "boom")]
    [("db", ⟨0, "down"⟩)] "db" "boom" ⟨0, "down"⟩ (by decide) (by decide) (by decide)
  exact h.2 (by decide)

/-- **C7.** Behaviour of a health-check evaluator: a fresh evaluator counts as
failed; an erroring check on a healthy evaluator transitions to failed and
resets `healthySince`; a passing check on a failed evaluator transitions to
healthy and resets `healthySince`; otherwise the state is unchanged; the gauge
receives `0` while failed and `now - healthySince` while healthy, and the
result carries that duration (resp. the error string with zero duration). -/
theorem healthcheck_evaluator_evaluate_spec (e : Evaluator) (now : Int) (msg : String) :
    (newHealthcheckEvaluator now).failed = true
    ∧ (e.failed = false →
        (e.evaluate now (some msg)).1.failed = true
        ∧ (e.evaluate now (some msg)).1.healthySince = now)
    ∧ (e.failed = true → (e.evaluate now (some msg)).1 = e)
    ∧ (e.failed = true →
        (e.evaluate now none).1.failed = false
        ∧ (e.evaluate now none).1.healthySince = now)
    ∧ (e.failed = false → (e.evaluate now none).1 = e)
    ∧ ((e.evaluate now (some msg)).2.1 = 0
        ∧ (e.evaluate now (some msg)).2.2 = ⟨0, msg⟩)
    ∧ ((e.evaluate now none).2.1 = now - (e.evaluate now none).1.healthySince
        ∧ (e.evaluate now none).2.2
            = ⟨now - (e.evaluate now none).1.healthySince, ""⟩) := by
  obtain ⟨s, f⟩ := e
  cases f <;> simp [Evaluator.evaluate, newHealthcheckEvaluator]

/-- Witness for `healthcheck_evaluator_evaluate_spec`: a healthy evaluator
that sees an error transitions to failed with `healthySince` reset. -/
theorem healthcheck_evaluator_evaluate_spec_witness :
    ((⟨0, false⟩ : Evaluator).evaluate 5 (some "x")).1.failed = true
    ∧ ((⟨0, false⟩ : Evaluator).evaluate 5 (some "x")).1.healthySince = 5 :=
  (healthcheck_evaluator_evaluate_spec ⟨0, false⟩ 5 "x").2.1 rfl

end GoSvc.Hc

namespace GoSvc.Reg

/-! ### Theorems about the registry model -/

theorem lookup_pset_self (m : List (Ty × Provider)) (k : Ty) (p : Provider) :
    (pset m k p).lookup k = some p := by
  induction m with
  | nil => simp [pset]
  | cons q rest ih =>
    by_cases h : q.1 = k
    · simp [pset, h]
    · simp only [pset, if_neg h]
      simpa [List.lookup, (by simpa using Ne.symm h : (k == q.1) = false)] using ih

theorem lookup_pset_ne (m : List (Ty × Provider)) {k j : Ty} (h : j ≠ k) (p : Provider) :
    (pset m k p).lookup j = m.lookup j := by
  induction m with
  | nil => simp [pset, List.lookup, (by simpa using h : (j == k) = false)]
  | cons q rest ih =>
    by_cases hq : q.1 = k
    · subst hq
      simp [pset, List.lookup, (by simpa using h : (j == q.1) = false)]
    · simp only [pset, if_neg hq]
      by_cases hj : j = q.1
      · simp [List.lookup, hj]
      · simpa [List.lookup, (by simpa using hj : (j == q.1) = false)] using ih

theorem keys_pset (m : List (Ty × Provider)) (k : Ty) (p : Provider)
    (h : (m.lookup k).isSome) : (pset m k p).map Prod.fst = m.map Prod.fst := by
  induction m with
  | nil => simp [List.lookup] at h
  | cons q rest ih =>
    by_cases hq : q.1 = k
    · simp [pset, hq]
    · simp only [pset, if_neg hq, List.map_cons, List.cons.injEq, true_and]
      apply ih
      simpa [List.lookup, (by simpa using Ne.symm hq : (k == q.1) = false)] using h

theorem coreEq_refl (st : RegSt) : coreEq st st := ⟨rfl, fun _ => rfl⟩

theorem coreEq_trans {s1 s2 s3 : RegSt} (h1 : coreEq s1 s2) (h2 : coreEq s2 s3) :
    coreEq s1 s3 := ⟨h2.1.trans h1.1, fun k => (h2.2 k).trans (h1.2 k)⟩

theorem lookupP_eq (st : RegSt) (t : Ty) : st.lookupP t = st.providers.lookup t := rfl

theorem instantiate_cases (env : TyEnv) (zf : Nat) (st : RegSt) (key : Ty)
    (params : List Val) (st' : RegSt) (r : Except RegErr Unit)
    (h : instantiate env zf st key params = (st', r))
    (p : Provider) (hl : st.lookupP key = some p) :
    (∀ j, j ≠ key → st'.lookupP j = st.lookupP j)
    ∧ st'.keysOf = st.keysOf
    ∧ (st'.lookupP key).map Provider.core = some p.core
    ∧ (r = .ok () →
        ∃ w, st'.lookupP key = some { p with calls := p.calls + 1, inst := some w }) := by
  have hlook : st.providers.lookup key = some p := (lookupP_eq st key) ▸ hl
  have hsome : (st.providers.lookup key).isSome := by simp [hlook]
  have hself1 : (pset st.providers key { p with calls := p.calls + 1 }).lookup key
      = some { p with calls := p.calls + 1 } := lookup_pset_self _ _ _
  have hkeys1 : (pset st.providers key { p with calls := p.calls + 1 }).map Prod.fst
      = st.providers.map Prod.fst := keys_pset _ _ _ hsome
  simp only [instantiate, hl] at h
  split at h
  · -- createParamStruct (or the identity) failed
    obtain ⟨h1, h2⟩ := Prod.ext_iff.1 h
    dsimp only at h1 h2
    subst h1
    subst h2
    refine ⟨fun j _ => rfl, rfl, by simp [hl], ?_⟩
    intro hr
    simp at hr
  · -- parameters built; case on the constructor call outcome
    split at h
    · -- constructor returned an error
      obtain ⟨h1, h2⟩ := Prod.ext_iff.1 h
      dsimp only at h1 h2
      subst h1
      subst h2
      refine ⟨?_, ?_, ?_, ?_⟩
      · intro j hj
        simp [RegSt.lookupP, lookup_pset_ne _ hj]
      · simpa [RegSt.keysOf] using hkeys1
      · simp [RegSt.lookupP, hself1, Provider.core]
      · intro hr
        simp at hr
    · split at h
      · -- constructor returned a nil value
        obtain ⟨h1, h2⟩ := Prod.ext_iff.1 h
        dsimp only at h1 h2
        subst h1
        subst h2
        refine ⟨?_, ?_, ?_, ?_⟩
        · intro j hj
          simp [RegSt.lookupP, lookup_pset_ne _ hj]
        · simpa [RegSt.keysOf] using hkeys1
        · simp [RegSt.lookupP, hself1, Provider.core]
        · intro hr
          simp at hr
      · -- success: the instance is cached
        rename_i paramsE params2 hE cerr hcnone hnotnil
        obtain ⟨h1, h2⟩ := Prod.ext_iff.1 h
        dsimp only at h1 h2
        subst h1
        subst h2
        refine ⟨?_, ?_, ?_, ?_⟩
        · intro j hj
          simp only [RegSt.lookupP]
          rw [lookup_pset_ne _ hj, lookup_pset_ne _ hj]
        · simp only [RegSt.keysOf]
          rw [keys_pset _ _ _ (by simp [hself1]), hkeys1]
        · simp [RegSt.lookupP, lookup_pset_self, Provider.core]
        · intro _
          exact ⟨(p.ctor.impl st.nextId params2).1,
            by simp [RegSt.lookupP, lookup_pset_self]⟩

theorem Pres_refl (st : RegSt) : Pres st st := fun _ _ h => ⟨h, rfl⟩

theorem Pres_trans {s1 s2 s3 : RegSt} (h1 : Pres s1 s2) (h2 : Pres s2 s3) :
    Pres s1 s3 := fun k v h => by
  obtain ⟨a, b⟩ := h1 k v h
  obtain ⟨c, d⟩ := h2 k v a
  exact ⟨c, d.trans b⟩

theorem coreEq_lookup_some {st st' : RegSt} (h : coreEq st st') {k : Ty} {p : Provider}
    (hl : st.lookupP k = some p) :
    ∃ p', st'.lookupP k = some p' ∧ p'.core = p.core := by
  have := h.2 k
  rw [hl] at this
  cases hlk : st'.lookupP k with
  | none => rw [hlk] at this; simp at this
  | some p' =>
    rw [hlk] at this
    refine ⟨p', rfl, ?_⟩
    simpa using this

theorem instantiate_coreEq (env : TyEnv) (zf : Nat) (st : RegSt) (key : Ty)
    (params : List Val) (st' : RegSt) (r : Except RegErr Unit)
    (h : instantiate env zf st key params = (st', r)) :
    coreEq st st' ∧ (∀ j, j ≠ key → st'.lookupP j = st.lookupP j) := by
  cases hl : st.lookupP key with
  | none =>
    simp only [instantiate, hl] at h
    obtain ⟨h1, h2⟩ := Prod.ext_iff.1 h
    dsimp only at h1
    subst h1
    exact ⟨coreEq_refl st, fun _ _ => rfl⟩
  | some p =>
    obtain ⟨g1, g2, g3, _⟩ := instantiate_cases env zf st key params st' r h p hl
    refine ⟨⟨g2, ?_⟩, g1⟩
    intro k
    by_cases hk : k = key
    · subst hk
      rw [g3, hl]
      rfl
    · rw [g1 k hk]

theorem instantiate_pres (env : TyEnv) (zf : Nat) (st : RegSt) (key : Ty)
    (params : List Val) (st' : RegSt) (r : Except RegErr Unit)
    (h : instantiate env zf st key params = (st', r))
    (hkey : st.instOf key = none) : Pres st st' := by
  intro k v hv
  have hk : k ≠ key := fun e => by rw [e, hkey] at hv; cases hv
  have := (instantiate_coreEq env zf st key params st' r h).2 k hk
  constructor
  · simp only [RegSt.instOf, this]; exact hv
  · simp only [RegSt.callsOf, this]

theorem resolve_succ (env : TyEnv) (f : Nat) (st : RegSt) (key : Ty) (extras : List Val) :
    resolve env (f + 1) st key extras
    = match st.lookupP key with
      | none => (st, .error (.noProvider key))
      | some p =>
        if p.inst.isSome then (st, .ok ())
        else
          match resolveRequires env f st p p.requires 0 extras []
              (extras.flatMap fun param => p.requiresOnInstantiation.filterMap fun r =>
                if r = param.typeOf then some param else none) with
          | (st', .error e) => (st', .error e)
          | (st', .ok params) => instantiate env f st' key params := rfl

theorem resolveRequires_nil (env : TyEnv) (f : Nat) (st : RegSt) (p : Provider)
    (idx : Nat) (extras acc filtered : List Val) :
    resolveRequires env f st p [] idx extras acc filtered = (st, .ok (acc ++ filtered)) := rfl

theorem resolveRequires_cons (env : TyEnv) (f : Nat) (st : RegSt) (p : Provider)
    (t : Ty) (rest : List Ty) (idx : Nat) (extras acc filtered : List Val) :
    resolveRequires env f st p (t :: rest) idx extras acc filtered
    = match (match st.lookupP t with
             | some _ => .ok (some t)
             | none => findProviderForInterface env st t : Except RegErr (Option Ty)) with
      | .error e => (st, .error e)
      | .ok none =>
        if exactSubSignatureMatch p.ctor.args idx extras then (st, .ok (acc ++ extras))
        else (st, .error (.noProviderRequired t))
      | .ok (some depKey) =>
        match resolve env f st depKey extras with
        | (st', .error e) => (st', .error e)
        | (st', .ok ()) =>
          match (st'.lookupP depKey).bind (·.inst) with
          | some v => resolveRequires env f st' p rest (idx + 1) extras (acc ++ [v]) filtered
          | none => (st', .error (.noProvider depKey)) := rfl

theorem resolve_pres (env : TyEnv) : ∀ fuel : Nat,
    (∀ st key extras,
      coreEq st (resolve env fuel st key extras).1
      ∧ Pres st (resolve env fuel st key extras).1)
    ∧ (∀ reqs st p idx extras acc filtered,
      coreEq st (resolveRequires env fuel st p reqs idx extras acc filtered).1
      ∧ Pres st (resolveRequires env fuel st p reqs idx extras acc filtered).1) := by
  intro fuel
  induction fuel using Nat.strong_induction_on with
  | _ fuel ih =>
    have hres : ∀ st key extras,
        coreEq st (resolve env fuel st key extras).1
        ∧ Pres st (resolve env fuel st key extras).1 := by
      intro st key extras
      match fuel with
      | 0 =>
        rw [show resolve env 0 st key extras = (st, .error .outOfFuel) from by rw [resolve]]
        exact ⟨coreEq_refl st, Pres_refl st⟩
      | f + 1 =>
        have hRR := (ih f (Nat.lt_succ_self f)).2
        rw [resolve_succ]
        split
        · exact ⟨coreEq_refl st, Pres_refl st⟩
        · rename_i p hl
          split
          · exact ⟨coreEq_refl st, Pres_refl st⟩
          · rename_i hni
            cases hRRe : resolveRequires env f st p p.requires 0 extras []
                (extras.flatMap fun param => p.requiresOnInstantiation.filterMap fun r =>
                  if r = param.typeOf then some param else none) with
            | mk st1 r1 =>
              have hspec := hRR p.requires st p 0 extras []
                (extras.flatMap fun param => p.requiresOnInstantiation.filterMap fun r =>
                  if r = param.typeOf then some param else none)
              rw [hRRe] at hspec
              cases r1 with
              | error e => exact hspec
              | ok params =>
                show coreEq st (instantiate env f st1 key params).1
                  ∧ Pres st (instantiate env f st1 key params).1
                obtain ⟨hC2, hne2⟩ := instantiate_coreEq env f st1 key params
                  (instantiate env f st1 key params).1
                  (instantiate env f st1 key params).2 rfl
                refine ⟨coreEq_trans hspec.1 hC2, ?_⟩
                intro k v hv
                have hknek : k ≠ key := by
                  intro e
                  subst e
                  simp only [RegSt.instOf, hl, Option.some_bind] at hv
                  exact hni (by simp [hv])
                obtain ⟨a, b⟩ := hspec.2 k v hv
                have hlk := hne2 k hknek
                constructor
                · simp only [RegSt.instOf, hlk]
                  simp only [RegSt.instOf] at a
                  exact a
                · simp only [RegSt.callsOf, hlk]
                  simp only [RegSt.callsOf] at b
                  exact b
    refine ⟨hres, ?_⟩
    intro reqs
    induction reqs with
    | nil =>
      intro st p idx extras acc filtered
      rw [resolveRequires_nil]
      exact ⟨coreEq_refl st, Pres_refl st⟩
    | cons t rest ihr =>
      intro st p idx extras acc filtered
      rw [resolveRequires_cons]
      split
      · exact ⟨coreEq_refl st, Pres_refl st⟩
      · split
        · exact ⟨coreEq_refl st, Pres_refl st⟩
        · exact ⟨coreEq_refl st, Pres_refl st⟩
      · rename_i depKey hfound
        cases hre : resolve env fuel st depKey extras with
        | mk st1 r1 =>
          have hspec := hres st depKey extras
          rw [hre] at hspec
          cases r1 with
          | error e => exact hspec
          | ok u =>
            cases u
            show coreEq st ((match (st1.lookupP depKey).bind (·.inst) with
                | some v =>
                  resolveRequires env fuel st1 p rest (idx + 1) extras (acc ++ [v]) filtered
                | none => (st1, .error (.noProvider depKey))).1)
              ∧ Pres st ((match (st1.lookupP depKey).bind (·.inst) with
                | some v =>
                  resolveRequires env fuel st1 p rest (idx + 1) extras (acc ++ [v]) filtered
                | none => (st1, .error (.noProvider depKey))).1)
            cases hbi : (st1.lookupP depKey).bind (·.inst) with
            | none => exact hspec
            | some v =>
              have hnext := ihr st1 p (idx + 1) extras (acc ++ [v]) filtered
              exact ⟨coreEq_trans hspec.1 hnext.1, Pres_trans hspec.2 hnext.2⟩

theorem depKeyOf_coreEq (env : TyEnv) {st st' : RegSt} (h : coreEq st st') (t : Ty) :
    depKeyOf env st' t = depKeyOf env st t := by
  have hmap := h.2 t
  have hkeys : st'.providers.map Prod.fst = st.providers.map Prod.fst := h.1
  simp only [depKeyOf, findProviderForInterface]
  cases hl : st.lookupP t with
  | some p =>
    obtain ⟨p', hp', _⟩ := coreEq_lookup_some h hl
    rw [hp']
  | none =>
    cases hl' : st'.lookupP t with
    | some p' =>
      rw [hl, hl'] at hmap
      simp at hmap
    | none => rw [show st'.providers.map Prod.fst = st.providers.map Prod.fst from hkeys]

theorem Stratified_coreEq (env : TyEnv) {st st' : RegSt} (rank : Ty → Nat)
    (h : coreEq st st') (HS : Stratified env st rank) : Stratified env st' rank := by
  intro k p' hp' t ht k' hdep
  have hmap := h.2 k
  rw [hp'] at hmap
  cases hl : st.lookupP k with
  | none => rw [hl] at hmap; simp at hmap
  | some p =>
    rw [hl] at hmap
    simp only [Option.map] at hmap
    have hcore : p'.core = p.core := by injection hmap
    have hreq : p'.requires = p.requires := congrArg Prod.fst hcore
    rw [depKeyOf_coreEq env h] at hdep
    exact HS k p hl t (hreq ▸ ht) k' hdep

theorem found_depKeyOf (env : TyEnv) (st : RegSt) (t depKey : Ty)
    (h : (match st.lookupP t with
          | some _ => .ok (some t)
          | none => findProviderForInterface env st t : Except RegErr (Option Ty))
        = .ok (some depKey)) :
    depKeyOf env st t = some depKey := by
  cases hl : st.lookupP t with
  | some p =>
    rw [hl] at h
    have ht : t = depKey := by simpa using h
    subst ht
    simp [depKeyOf, hl]
  | none =>
    rw [hl] at h
    have h' : findProviderForInterface env st t = .ok (some depKey) := h
    simp [depKeyOf, hl, h']

theorem resolve_touch (env : TyEnv) (rank : Ty → Nat) : ∀ fuel : Nat,
    (∀ st key extras, Stratified env st rank →
      ∀ j, rank key ≤ rank j → j ≠ key →
        (resolve env fuel st key extras).1.lookupP j = st.lookupP j)
    ∧ (∀ reqs st p B idx extras acc filtered, Stratified env st rank →
        (∀ t ∈ reqs, ∀ k', depKeyOf env st t = some k' → rank k' < B) →
        ∀ j, B ≤ rank j →
          (resolveRequires env fuel st p reqs idx extras acc filtered).1.lookupP j
            = st.lookupP j) := by
  intro fuel
  induction fuel using Nat.strong_induction_on with
  | _ fuel ih =>
    have hres : ∀ st key extras, Stratified env st rank →
        ∀ j, rank key ≤ rank j → j ≠ key →
          (resolve env fuel st key extras).1.lookupP j = st.lookupP j := by
      intro st key extras HS j hrk hj
      match fuel with
      | 0 =>
        rw [show resolve env 0 st key extras = (st, .error .outOfFuel) from by rw [resolve]]
      | f + 1 =>
        have hRR := (ih f (Nat.lt_succ_self f)).2
        rw [resolve_succ]
        split
        · rfl
        · rename_i p hl
          split
          · rfl
          · rename_i hni
            cases hRRe : resolveRequires env f st p p.requires 0 extras []
                (extras.flatMap fun param => p.requiresOnInstantiation.filterMap fun r =>
                  if r = param.typeOf then some param else none) with
            | mk st1 r1 =>
              have htouch := hRR p.requires st p (rank key) 0 extras []
                (extras.flatMap fun param => p.requiresOnInstantiation.filterMap fun r =>
                  if r = param.typeOf then some param else none)
                HS (fun t ht k' hdep => HS key p hl t ht k' hdep) j hrk
              rw [hRRe] at htouch
              cases r1 with
              | error e => exact htouch
              | ok params =>
                show (instantiate env f st1 key params).1.lookupP j = st.lookupP j
                have hinst := (instantiate_coreEq env f st1 key params
                  (instantiate env f st1 key params).1
                  (instantiate env f st1 key params).2 rfl).2 j hj
                exact hinst.trans htouch
    refine ⟨hres, ?_⟩
    intro reqs
    induction reqs with
    | nil =>
      intro st p B idx extras acc filtered _ _ j _
      rw [resolveRequires_nil]
    | cons t rest ihr =>
      intro st p B idx extras acc filtered HS hdeps j hBj
      rw [resolveRequires_cons]
      split
      · rfl
      · split
        · rfl
        · rfl
      · rename_i depKey hfound
        have hdk : depKeyOf env st t = some depKey := found_depKeyOf env st t depKey hfound
        have hrankdk : rank depKey < B := hdeps t (List.mem_cons_self t rest) depKey hdk
        have hj1 : rank depKey ≤ rank j := le_of_lt (lt_of_lt_of_le hrankdk hBj)
        have hjne : j ≠ depKey := by
          intro e
          subst e
          exact absurd hBj (not_le.mpr hrankdk)
        cases hre : resolve env fuel st depKey extras with
        | mk st1 r1 =>
          have htouch := hres st depKey extras HS j hj1 hjne
          rw [hre] at htouch
          have hC : coreEq st st1 := by
            have := ((resolve_pres env fuel).1 st depKey extras).1
            rw [hre] at this
            exact this
          cases r1 with
          | error e => exact htouch
          | ok u =>
            cases u
            show (match (st1.lookupP depKey).bind (·.inst) with
                | some v =>
                  resolveRequires env fuel st1 p rest (idx + 1) extras (acc ++ [v]) filtered
                | none => (st1, .error (.noProvider depKey))).1.lookupP j = st.lookupP j
            cases hbi : (st1.lookupP depKey).bind (·.inst) with
            | none => exact htouch
            | some v =>
              have hS1 : Stratified env st1 rank := Stratified_coreEq env rank hC HS
              have hd1 : ∀ t' ∈ rest, ∀ k', depKeyOf env st1 t' = some k' → rank k' < B := by
                intro t' ht' k' hdep'
                rw [depKeyOf_coreEq env hC] at hdep'
                exact hdeps t' (List.mem_cons_of_mem t ht') k' hdep'
              have hnext := ihr st1 p B (idx + 1) extras (acc ++ [v]) filtered hS1 hd1 j hBj
              exact hnext.trans htouch

theorem resolve_calls_once (env : TyEnv) (rank : Ty → Nat) (fuel : Nat) (st : RegSt)
    (key : Ty) (extras : List Val) (st' : RegSt)
    (h : resolve env fuel st key extras = (st', .ok ()))
    (hnone : st.instOf key = none) (HS : Stratified env st rank) :
    st'.callsOf key = st.callsOf key + 1 ∧ ∃ w, st'.instOf key = some w := by
  match fuel with
  | 0 =>
    rw [show resolve env 0 st key extras = (st, .error .outOfFuel) from by rw [resolve]] at h
    simp [Prod.ext_iff] at h
  | f + 1 =>
    rw [resolve_succ] at h
    split at h
    · simp [Prod.ext_iff] at h
    · rename_i p hl
      split at h
      · -- a cached instance contradicts `hnone`
        rename_i hpi
        rw [RegSt.instOf, hl, Option.some_bind] at hnone
        rw [hnone] at hpi
        simp at hpi
      · split at h
        · simp [Prod.ext_iff] at h
        · rename_i st1 params heq2
          have htouch := (resolve_touch env rank f).2 p.requires st p (rank key) 0 extras []
            (extras.flatMap fun param => p.requiresOnInstantiation.filterMap fun r =>
              if r = param.typeOf then some param else none)
            HS (fun t ht k' hdep => HS key p hl t ht k' hdep) key (le_refl _)
          rw [heq2] at htouch
          have hl1 : st1.lookupP key = some p := htouch.trans hl
          obtain ⟨_, _, _, g4⟩ := instantiate_cases env f st1 key params st' (.ok ()) h p hl1
          obtain ⟨w, hw⟩ := g4 rfl
          constructor
          · simp [RegSt.callsOf, hw, hl]
          · exact ⟨w, by simp [RegSt.instOf, hw]⟩

theorem interfaceFor_pres (env : TyEnv) (fuel : Nat) (st : RegSt) (key : Ty)
    (params : List Val) :
    coreEq st (interfaceFor env fuel st key params).1
    ∧ Pres st (interfaceFor env fuel st key params).1 := by
  simp only [interfaceFor]
  split
  · exact ⟨coreEq_refl st, Pres_refl st⟩
  · rename_i p hl
    split
    · exact ⟨coreEq_refl st, Pres_refl st⟩
    · rename_i hpi
      cases hre : resolve env fuel st key (params ++ p.staticArgs) with
      | mk st1 r1 =>
        have hspec := (resolve_pres env fuel).1 st key (params ++ p.staticArgs)
        rw [hre] at hspec
        cases r1 with
        | error e => exact hspec
        | ok u =>
          cases u
          show coreEq st ((match (st1.lookupP key).bind (fun q : Provider => q.inst) with
              | some v => (st1, Except.ok v)
              | none => (st1, Except.error (RegErr.noProvider key))).1)
            ∧ Pres st ((match (st1.lookupP key).bind (fun q : Provider => q.inst) with
              | some v => (st1, Except.ok v)
              | none => (st1, Except.error (RegErr.noProvider key))).1)
          cases hbi : (st1.lookupP key).bind (fun q : Provider => q.inst) with
          | none => exact hspec
          | some v => exact hspec

theorem request_pres (env : TyEnv) (fuel : Nat) (st : RegSt) (T : Ty)
    (params : List Val) :
    coreEq st (request env fuel st T params).1
    ∧ Pres st (request env fuel st T params).1 := by
  simp only [request]
  split
  · exact ⟨coreEq_refl st, Pres_refl st⟩
  · exact interfaceFor_pres env fuel st _ params

theorem providerFor_coreEq (env : TyEnv) {st st' : RegSt} (h : coreEq st st') (T : Ty) :
    providerFor env st' T = providerFor env st T := by
  cases hl : st.lookupP T with
  | some p =>
    obtain ⟨p', hp', _⟩ := coreEq_lookup_some h hl
    simp [providerFor, hl, hp']
  | none =>
    cases hl' : st'.lookupP T with
    | some p' =>
      exfalso
      have hmap := h.2 T
      rw [hl, hl'] at hmap
      simp at hmap
    | none =>
      simp only [providerFor, hl, hl', findProviderForInterface]
      have hk : st'.providers.map Prod.fst = st.providers.map Prod.fst := h.1
      rw [hk]

theorem request_success_caches (env : TyEnv) (fuel : Nat) (st : RegSt) (T : Ty)
    (params : List Val) (st' : RegSt) (v : Val) (key : Ty)
    (h : request env fuel st T params = (st', .ok v))
    (hpf : providerFor env st T = .ok key) :
    st'.instOf key = some v := by
  simp only [request, hpf] at h
  simp only [interfaceFor] at h
  split at h
  · simp [Prod.ext_iff] at h
  · rename_i p hl
    split at h
    · rename_i v0 hpi
      obtain ⟨h1, h2⟩ := Prod.ext_iff.1 h
      dsimp only at h1 h2
      subst h1
      simp only [Except.ok.injEq] at h2
      subst h2
      simp [RegSt.instOf, hl, hpi]
    · rename_i hpi
      split at h
      · simp [Prod.ext_iff] at h
      · rename_i st1 u heqres
        split at h
        · rename_i w hbi
          obtain ⟨h1, h2⟩ := Prod.ext_iff.1 h
          dsimp only at h1 h2
          subst h1
          simp only [Except.ok.injEq] at h2
          subst h2
          simpa [RegSt.instOf] using hbi
        · simp [Prod.ext_iff] at h

/-- **C1.** Registry singleton property: a successful `Request` caches the
returned instance under the serving provider's key; every subsequent
`Request` for the same type returns that identical cached instance with no
state change; on an acyclic (rank-stratified) provider graph the first
successful `Request` invokes the constructor exactly once; and no later
`Request` (for any type) ever invokes that constructor again or changes
the cached instance. -/
theorem registry_singleton_request (env : TyEnv) (fuel : Nat) (st : RegSt)
    (T key : Ty) (params : List Val) (st' : RegSt) (v : Val) (rank : Ty → Nat)
    (hreq : request env fuel st T params = (st', .ok v))
    (hkey : providerFor env st T = .ok key) :
    st'.instOf key = some v
    ∧ (∀ fuel2 params2, request env fuel2 st' T params2 = (st', .ok v))
    ∧ (st.instOf key = none → Stratified env st rank →
        st'.callsOf key = st.callsOf key + 1)
    ∧ (∀ fuel2 T2 params2,
        (request env fuel2 st' T2 params2).1.instOf key = some v
        ∧ (request env fuel2 st' T2 params2).1.callsOf key = st'.callsOf key) := by
  have hcache : st'.instOf key = some v :=
    request_success_caches env fuel st T params st' v key hreq hkey
  have hC : coreEq st st' := by
    have := (request_pres env fuel st T params).1
    rw [hreq] at this
    exact this
  obtain ⟨p'', hp'', hpi''⟩ : ∃ p'', st'.lookupP key = some p'' ∧ p''.inst = some v := by
    simp only [RegSt.instOf] at hcache
    cases hlk : st'.lookupP key with
    | none => rw [hlk] at hcache; cases hcache
    | some q =>
      rw [hlk] at hcache
      exact ⟨q, rfl, by simpa using hcache⟩
  refine ⟨hcache, ?_, ?_, ?_⟩
  · intro fuel2 params2
    have hpf' : providerFor env st' T = .ok key := (providerFor_coreEq env hC T).trans hkey
    simp [request, hpf', interfaceFor, hp'', hpi'']
  · intro hnone HS
    simp only [request, hkey] at hreq
    simp only [interfaceFor] at hreq
    split at hreq
    · simp [Prod.ext_iff] at hreq
    · rename_i p hl
      split at hreq
      · rename_i v0 hpi
        exfalso
        rw [RegSt.instOf, hl, Option.some_bind, hpi] at hnone
        cases hnone
      · rename_i hpi
        split at hreq
        · simp [Prod.ext_iff] at hreq
        · rename_i st1 u heqres
          split at hreq
          · rename_i w hbi
            obtain ⟨h1, h2⟩ := Prod.ext_iff.1 hreq
            dsimp only at h1 h2
            subst h1
            exact (resolve_calls_once env rank fuel st key (params ++ p.staticArgs) _
              heqres hnone HS).1
          · simp [Prod.ext_iff] at hreq
  · intro fuel2 T2 params2
    exact (request_pres env fuel2 st' T2 params2).2 key v hcache

/-- Witness for `registry_singleton_request`: on a one-provider registry
the first request records exactly one constructor call and the second
request returns the identical instance with the state unchanged. -/
theorem registry_singleton_request_witness :
    ((request envEmpty 9 regStA (.base 1) []).1.callsOf (.base 1)
        = regStA.callsOf (.base 1) + 1)
    ∧ request envEmpty 9 (request envEmpty 9 regStA (.base 1) []).1 (.base 1) []
        = ((request envEmpty 9 regStA (.base 1) []).1, .ok (.obj (.base 1) 0)) := by
  have h := registry_singleton_request envEmpty 9 regStA (.base 1) (.base 1) []
    (request envEmpty 9 regStA (.base 1) []).1 (.obj (.base 1) 0) (fun _ => 0)
    rfl rfl
  refine ⟨h.2.2.1 rfl ?_, h.2.1 9 []⟩
  intro k p hkp t ht k' hdep
  by_cases hk : k = Ty.base 1
  · subst hk
    rw [show regStA.lookupP (Ty.base 1)
        = some ⟨[], none, [], .base 1, ctorBase1, none, [], 0⟩ from rfl] at hkp
    obtain ⟨rfl⟩ := hkp
    simp at ht
  · have hb : (k == Ty.base 1) = false := beq_eq_false_iff_ne.mpr hk
    have hnone : regStA.lookupP k = none := by
      show (match k == Ty.base 1 with
        | true => some (⟨[], none, [], .base 1, ctorBase1, none, [], 0⟩ : Provider)
        | false => none) = none
      rw [hb]
    rw [hnone] at hkp
    cases hkp

/-- **C9.** Registering a second constructor for an already-provided output
type fails with a configuration error, stores nothing, and leaves every
request outcome unchanged. -/
theorem registry_duplicate_registration (env : TyEnv) (fuel : Nat) (st : RegSt)
    (ctor : CtorSpec) (args : List Val) (p0 : Provider)
    (h : st.lookupP ctor.ret = some p0) :
    register env fuel st ctor args = (st, .error (.duplicateProvider ctor.ret))
    ∧ ∀ fuel2 T ps, request env fuel2 (register env fuel st ctor args).1 T ps
        = request env fuel2 st T ps := by
  have hreg : register env fuel st ctor args = (st, .error (.duplicateProvider ctor.ret)) := by
    simp [register, h]
  exact ⟨hreg, fun fuel2 T ps => by rw [hreg]⟩

/-- Witness for `registry_duplicate_registration`: re-registering
`ctorBase1` fails and requests against the result behave as before. -/
theorem registry_duplicate_registration_witness :
    (register envEmpty 9 regStA ctorBase1 []).2 = .error (.duplicateProvider (.base 1))
    ∧ request envEmpty 9 (register envEmpty 9 regStA ctorBase1 []).1 (.base 1) []
        = request envEmpty 9 regStA (.base 1) [] := by
  have h := registry_duplicate_registration envEmpty 9 regStA ctorBase1 []
    ⟨[], none, [], .base 1, ctorBase1, none, [], 0⟩ rfl
  refine ⟨?_, h.2 9 (.base 1) []⟩
  exact congrArg Prod.snd h.1

theorem request_nil_helper (env : TyEnv) (fuel : Nat) (st : RegSt) (T : Ty) (p : Provider)
    (hl : st.lookupP T = some p)
    (hreq : p.requires = []) (heps : p.expectedParamStruct = none)
    (hsa : p.staticArgs = []) (hinst : p.inst = none)
    (hnil : (p.ctor.impl st.nextId []).1.isNil = true ∧ (p.ctor.impl st.nextId []).2 = none) :
    request env (fuel + 1) st T []
      = (⟨pset st.providers T { p with calls := p.calls + 1 }, st.nextId + 1⟩,
         .error (.nilCtorReturn T)) := by
  simp only [request, providerFor, hl, interfaceFor, hinst, List.nil_append, hsa,
    resolve_succ, Option.isSome_none, Bool.false_eq_true, if_false, hreq,
    List.flatMap_nil, resolveRequires_nil, instantiate, heps, hnil.1, hnil.2,
    List.append_nil, if_true]

/-- **C10.** A constructor returning `(nil, nil)` makes the request fail
with the dedicated nil-return error; no instance is cached, the provider
keeps serving, and a later request invokes the constructor again. -/
theorem registry_nil_ctor_return (env : TyEnv) (fuel : Nat) (st : RegSt) (T : Ty) (p : Provider)
    (hl : st.lookupP T = some p)
    (hreq : p.requires = []) (heps : p.expectedParamStruct = none)
    (hsa : p.staticArgs = []) (hinst : p.inst = none)
    (hnil : ∀ id, (p.ctor.impl id []).1.isNil = true ∧ (p.ctor.impl id []).2 = none) :
    (request env (fuel + 1) st T []).2 = .error (.nilCtorReturn T)
    ∧ (request env (fuel + 1) st T []).1.instOf T = none
    ∧ (request env (fuel + 1) st T []).1.callsOf T = st.callsOf T + 1
    ∧ (request env (fuel + 1) (request env (fuel + 1) st T []).1 T []).1.callsOf T
        = st.callsOf T + 2 := by
  have h1 := request_nil_helper env fuel st T p hl hreq heps hsa hinst (hnil st.nextId)
  have hl1 : RegSt.lookupP ⟨pset st.providers T { p with calls := p.calls + 1 }, st.nextId + 1⟩ T
      = some { p with calls := p.calls + 1 } := lookup_pset_self _ _ _
  have h2 := request_nil_helper env fuel
    ⟨pset st.providers T { p with calls := p.calls + 1 }, st.nextId + 1⟩ T
    { p with calls := p.calls + 1 } hl1 hreq heps hsa hinst (hnil (st.nextId + 1))
  refine ⟨by exact congrArg Prod.snd h1, ?_, ?_, ?_⟩
  · rw [h1]
    simp only [RegSt.instOf, hl1, Option.some_bind]
    exact hinst
  · rw [h1]
    simp only [RegSt.callsOf, hl1, hl]
  · rw [h1]
    dsimp only
    rw [h2]
    have hl2 : List.lookup T st.providers = some p := hl
    simp [RegSt.callsOf, RegSt.lookupP, lookup_pset_self, hl2]

/-- Witness for `registry_nil_ctor_return` on the concrete registry
`regStNil`. -/
theorem registry_nil_ctor_return_witness :
    (request envEmpty 9 regStNil (.base 2) []).2 = .error (.nilCtorReturn (.base 2))
    ∧ (request envEmpty 9 (request envEmpty 9 regStNil (.base 2) []).1
        (.base 2) []).1.callsOf (.base 2) = 2 := by
  have h := registry_nil_ctor_return envEmpty 8 regStNil (.base 2)
    ⟨[], none, [], .base 2, ctorNil2, none, [], 0⟩ rfl rfl rfl rfl rfl
    (fun _ => ⟨rfl, rfl⟩)
  exact ⟨h.1, by simpa using h.2.2.2⟩

/-- Counterexample to **C4** as stated: with field `B` tagged only `lazy`,
a `Request` without extra parameters does not leave `B` at its zero value —
`createParamStruct` panics ("could not find struct param") and the request
fails. -/
theorem registry_lazy_param_counterexample :
    (request (envC4 "lazy") 9 (regC4 "lazy") tyC []).2
      = .error (.panicMsg "could not find struct param")
    ∧ (request (envC4 "lazy") 9 (regC4 "lazy") tyC []).2
      ≠ .ok (.strukt 2 [.strukt 0 [], .obj tyA 0, .nilOf tyB]) := by
  refine ⟨rfl, ?_⟩
  intro hcontra
  rw [show (request (envC4 "lazy") 9 (regC4 "lazy") tyC []).2
      = .error (.panicMsg "could not find struct param") from rfl] at hcontra
  exact Except.noConfusion hcontra

/-- **C4** (amended).  For a params-struct constructor with a
graph-resolvable field `A` and a lazy field `B`: when `B` is a
pointer-to-struct field tagged `lazy,allownil`, a `Request` with no extra
parameters resolves `A` from the graph and leaves `B` at its zero (nil)
value, and `B` is populated exactly when a value of its type is supplied as
an extra parameter; with only the `lazy` tag, an unmatched `B` is a fatal
configuration error (panic) instead of a zero value. -/
theorem registry_lazy_param_amended :
    (request (envC4 "lazy,allownil") 9 (regC4 "lazy,allownil") tyC []).2
      = .ok (.strukt 2 [.strukt 0 [], .obj tyA 0, .nilOf tyB])
    ∧ (∀ idB : Nat,
        (request (envC4 "lazy,allownil") 9 (regC4 "lazy,allownil") tyC
            [.obj tyB idB]).2
          = .ok (.strukt 2 [.strukt 0 [], .obj tyA 0, .obj tyB idB]))
    ∧ (request (envC4 "lazy") 9 (regC4 "lazy") tyC []).2
      = .error (.panicMsg "could not find struct param") :=
  ⟨rfl, fun _ => rfl, rfl⟩

end GoSvc.Reg

namespace GoSvc.Run

/-! ### Theorems about the runner model -/

theorem initLoop_trace (cfg : RunnerConfig) (sigAt : Nat) :
    ∀ (pending : List Svc) (t : Nat) (inited : List Svc) (trace : List String), ∃ k,
    (initLoop cfg sigAt pending t inited trace).initTrace
      = trace ++ (pending.map (·.name)).take k := by
  intro pending
  induction pending with
  | nil =>
    intro t inited trace
    exact ⟨0, by simp [initLoop]⟩
  | cons s rest ih =>
    intro t inited trace
    simp only [initLoop]
    by_cases hcond : t + s.initTime ≤ max t sigAt ∧ t + s.initTime ≤ max t cfg.initTimeout
    · rw [if_pos hcond]
      cases hres : s.initRes with
      | some msg => exact ⟨1, by simp⟩
      | none =>
        obtain ⟨k, hk⟩ := ih (t + s.initTime) (inited ++ [s]) (trace ++ [s.name])
        refine ⟨k + 1, ?_⟩
        rw [hk]
        simp
    · rw [if_neg hcond]
      by_cases hs2 : max t sigAt ≤ max t cfg.initTimeout
      · rw [if_pos hs2]
        by_cases hc2 : t + s.initTime ≤ max t sigAt + cfg.onInitSignalTimeout
        · rw [if_pos hc2]
          cases hres : s.initRes with
          | some msg => exact ⟨1, by simp⟩
          | none => exact ⟨1, by simp⟩
        · rw [if_neg hc2]
          exact ⟨1, by simp⟩
      · rw [if_neg hs2]
        exact ⟨1, by simp⟩

theorem initLoop_inited_names (cfg : RunnerConfig) (sigAt : Nat) :
    ∀ (pending : List Svc) (t : Nat) (inited : List Svc) (trace : List String),
    inited.map (·.name) = trace →
    (initLoop cfg sigAt pending t inited trace).inited.map (·.name)
      <+: (initLoop cfg sigAt pending t inited trace).initTrace := by
  intro pending
  induction pending with
  | nil =>
    intro t inited trace h
    simp only [initLoop]
    exact h ▸ List.prefix_refl _
  | cons s rest ih =>
    intro t inited trace h
    simp only [initLoop]
    by_cases hcond : t + s.initTime ≤ max t sigAt ∧ t + s.initTime ≤ max t cfg.initTimeout
    · rw [if_pos hcond]
      cases hres : s.initRes with
      | some msg => exact ⟨[s.name], by rw [h]⟩
      | none => exact ih (t + s.initTime) (inited ++ [s]) (trace ++ [s.name]) (by simp [h])
    · rw [if_neg hcond]
      by_cases hs2 : max t sigAt ≤ max t cfg.initTimeout
      · rw [if_pos hs2]
        by_cases hc2 : t + s.initTime ≤ max t sigAt + cfg.onInitSignalTimeout
        · rw [if_pos hc2]
          cases hres : s.initRes with
          | some msg => exact ⟨[s.name], by rw [h]⟩
          | none => exact ⟨[], by simp [h]⟩
        · rw [if_neg hc2]
          exact ⟨[s.name], by rw [h]⟩
      · rw [if_neg hs2]
        exact ⟨[s.name], by rw [h]⟩

theorem initLoop_clean (cfg : RunnerConfig) (sigAt : Nat) :
    ∀ (pending : List Svc) (t : Nat) (inited : List Svc) (trace : List String),
    (initLoop cfg sigAt pending t inited trace).sig = false →
    (initLoop cfg sigAt pending t inited trace).err = none →
    (initLoop cfg sigAt pending t inited trace).initTrace = trace ++ pending.map (·.name)
    ∧ (initLoop cfg sigAt pending t inited trace).inited = inited ++ pending := by
  intro pending
  induction pending with
  | nil =>
    intro t inited trace _ _
    simp [initLoop]
  | cons s rest ih =>
    intro t inited trace hsig herr
    simp only [initLoop] at hsig herr ⊢
    by_cases hcond : t + s.initTime ≤ max t sigAt ∧ t + s.initTime ≤ max t cfg.initTimeout
    · rw [if_pos hcond] at hsig herr ⊢
      cases hres : s.initRes with
      | some msg =>
        rw [hres] at herr
        simp at herr
      | none =>
        rw [hres] at hsig herr
        have h := ih (t + s.initTime) (inited ++ [s]) (trace ++ [s.name]) hsig herr
        simpa using h
    · rw [if_neg hcond] at hsig herr ⊢
      by_cases hs2 : max t sigAt ≤ max t cfg.initTimeout
      · rw [if_pos hs2] at hsig
        by_cases hc2 : t + s.initTime ≤ max t sigAt + cfg.onInitSignalTimeout
        · rw [if_pos hc2] at hsig
          cases hres : s.initRes with
          | some msg =>
            rw [hres] at hsig
            simp at hsig
          | none =>
            rw [hres] at hsig
            simp at hsig
        · rw [if_neg hc2] at hsig
          simp at hsig
      · rw [if_neg hs2] at herr
        simp at herr

theorem shutdownLoop_prefix (cfg : RunnerConfig) :
    ∀ (pending : List Svc) (t : Nat) (invoked : List String), ∃ k,
    (shutdownLoop cfg pending t invoked).1 = invoked ++ (pending.map (·.name)).take k := by
  intro pending
  induction pending with
  | nil =>
    intro t invoked
    exact ⟨0, by simp [shutdownLoop]⟩
  | cons s rest ih =>
    intro t invoked
    simp only [shutdownLoop]
    by_cases hc : t + s.shutdownTime ≤ max t cfg.shutdownTimeout
    · rw [if_pos hc]
      obtain ⟨k, hk⟩ := ih (t + s.shutdownTime) (invoked ++ [s.name])
      refine ⟨k + 1, ?_⟩
      rw [hk]
      simp
    · rw [if_neg hc]
      exact ⟨1, by simp⟩

theorem shutdownLoop_none (cfg : RunnerConfig) :
    ∀ (pending : List Svc) (t : Nat) (invoked : List String),
    (shutdownLoop cfg pending t invoked).2 = none →
    (shutdownLoop cfg pending t invoked).1 = invoked ++ pending.map (·.name) := by
  intro pending
  induction pending with
  | nil =>
    intro t invoked _
    simp [shutdownLoop]
  | cons s rest ih =>
    intro t invoked hnone
    simp only [shutdownLoop] at hnone ⊢
    by_cases hc : t + s.shutdownTime ≤ max t cfg.shutdownTimeout
    · rw [if_pos hc] at hnone ⊢
      have h := ih (t + s.shutdownTime) (invoked ++ [s.name]) hnone
      simpa using h
    · rw [if_neg hc] at hnone
      simp at hnone

theorem shutdownLoop_timeout (cfg : RunnerConfig) :
    ∀ (pending : List Svc) (k : Nat) (hk : k < pending.length) (t : Nat)
      (invoked : List String),
    t + ((pending.take k).map (·.shutdownTime)).sum ≤ cfg.shutdownTimeout →
    cfg.shutdownTimeout
      < t + ((pending.take k).map (·.shutdownTime)).sum
        + (pending.get ⟨k, hk⟩).shutdownTime →
    shutdownLoop cfg pending t invoked
      = (invoked ++ ((pending.take (k + 1)).map (·.name)),
         some (.timeoutShutdown (pending.get ⟨k, hk⟩).name cfg.shutdownTimeout)) := by
  intro pending
  induction pending with
  | nil =>
    intro k hk
    exact absurd hk (by simp)
  | cons s rest ih =>
    intro k hk t invoked h1 h2
    cases k with
    | zero =>
      have hget : (s :: rest).get ⟨0, hk⟩ = s := rfl
      rw [hget] at h2 ⊢
      simp only [List.take_zero, List.map_nil, List.sum_nil, Nat.add_zero] at h1 h2
      simp only [shutdownLoop]
      rw [if_neg (by omega)]
      simp
    | succ j =>
      have hj : j < rest.length := by
        have h := hk
        simp only [List.length_cons] at h
        omega
      have hget : (s :: rest).get ⟨j + 1, hk⟩ = rest.get ⟨j, hj⟩ := rfl
      rw [hget] at h2 ⊢
      simp only [List.take_succ_cons, List.map_cons, List.sum_cons] at h1 h2
      simp only [shutdownLoop]
      rw [if_pos (by omega)]
      rw [ih j hj (t + s.shutdownTime) (invoked ++ [s.name]) (by omega) (by omega)]
      simp

/-- C2: components are initialised in addition order and shut down in exact
reverse order restricted to those whose `Init` succeeded: the `Init`
invocation trace is a prefix of the addition order, the successfully
initialised services are a prefix of that trace, the `Shutdown` trace is a
prefix of the reversed initialised list — the whole of it when no error
cut shutdown short — and an error-free, signal-after-init run initialises
every added service in order. -/
theorem runner_ordering (cfg : RunnerConfig) (sigAt : Nat) (services : List Svc) :
    (run cfg sigAt services).initTrace <+: services.map (·.name)
    ∧ (run cfg sigAt services).initedNames <+: (run cfg sigAt services).initTrace
    ∧ (run cfg sigAt services).shutdownTrace
        <+: (run cfg sigAt services).initedNames.reverse
    ∧ ((run cfg sigAt services).err = none →
        (run cfg sigAt services).shutdownTrace
          = (run cfg sigAt services).initedNames.reverse)
    ∧ ((run cfg sigAt services).sigDuringInit = false →
        (run cfg sigAt services).err = none →
        (run cfg sigAt services).initTrace = services.map (·.name)
        ∧ (run cfg sigAt services).initedNames = services.map (·.name)) := by
  have ha : (run cfg sigAt services).initTrace
      = (initLoop cfg sigAt services 0 [] []).initTrace := rfl
  have hb : (run cfg sigAt services).initedNames
      = (initLoop cfg sigAt services 0 [] []).inited.map (·.name) := rfl
  have hc : (run cfg sigAt services).shutdownTrace
      = (shutdownLoop cfg (initLoop cfg sigAt services 0 [] []).inited.reverse 0 []).1 := rfl
  have he : (run cfg sigAt services).sigDuringInit
      = (initLoop cfg sigAt services 0 [] []).sig := rfl
  have hd : (run cfg sigAt services).err
      = (match (initLoop cfg sigAt services 0 [] []).err.map RunErr.startupWrap with
         | some e => some e
         | none =>
           (shutdownLoop cfg (initLoop cfg sigAt services 0 [] []).inited.reverse 0 []).2)
      := rfl
  have hrev : (initLoop cfg sigAt services 0 [] []).inited.reverse.map (·.name)
      = ((initLoop cfg sigAt services 0 [] []).inited.map (·.name)).reverse := by
    simp
  refine ⟨?_, ?_, ?_, ?_, ?_⟩
  · rw [ha]
    obtain ⟨k, hk⟩ := initLoop_trace cfg sigAt services 0 [] []
    rw [hk]
    simpa using List.take_prefix k (services.map (·.name))
  · rw [ha, hb]
    exact initLoop_inited_names cfg sigAt services 0 [] [] rfl
  · rw [hc, hb, ← hrev]
    obtain ⟨k, hk⟩ :=
      shutdownLoop_prefix cfg (initLoop cfg sigAt services 0 [] []).inited.reverse 0 []
    rw [hk]
    simpa using
      List.take_prefix k ((initLoop cfg sigAt services 0 [] []).inited.reverse.map (·.name))
  · intro h
    rw [hd] at h
    cases herr : (initLoop cfg sigAt services 0 [] []).err with
    | some e =>
      rw [herr] at h
      simp at h
    | none =>
      rw [herr] at h
      simp only [Option.map_none'] at h
      rw [hc, hb, ← hrev]
      exact shutdownLoop_none cfg (initLoop cfg sigAt services 0 [] []).inited.reverse 0 [] h
  · intro hsig herrtop
    rw [he] at hsig
    rw [hd] at herrtop
    cases herr : (initLoop cfg sigAt services 0 [] []).err with
    | some e =>
      rw [herr] at herrtop
      simp at herrtop
    | none =>
      have h := initLoop_clean cfg sigAt services 0 [] [] hsig herr
      constructor
      · rw [ha, h.1]
        simp
      · rw [hb, h.2]
        simp

/-- Closed witness for `runner_ordering`: on a concrete error-free run both
conditional conclusions fire — shutdown covers the reversed initialised
list and every added service is initialised in order. -/
theorem runner_ordering_witness :
    (run cfg2W 50 svcsW).shutdownTrace = (run cfg2W 50 svcsW).initedNames.reverse
    ∧ (run cfg2W 50 svcsW).initTrace = ["s1", "s2"] := by
  have h := runner_ordering cfg2W 50 svcsW
  exact ⟨h.2.2.2.1 rfl, (h.2.2.2.2 rfl rfl).1.trans (by rfl)⟩

/-- C3: when the aggregate shutdown budget admits the first `k` services of
the reverse sequence but expires during service `k`'s `Shutdown`, `Run`
returns the timeout error naming that service, the `Shutdown` trace stops
at that service (later services are never shut down), and `PostShutdown`
is invoked with that same error. -/
theorem runner_shutdown_timeout (cfg : RunnerConfig) (sigAt : Nat) (services : List Svc)
    (k : Nat)
    (hinit : (initServices cfg sigAt services).err = none)
    (hk : k < (initServices cfg sigAt services).inited.reverse.length)
    (hfits : (((initServices cfg sigAt services).inited.reverse.take k).map
        (·.shutdownTime)).sum ≤ cfg.shutdownTimeout)
    (hstuck : cfg.shutdownTimeout
        < (((initServices cfg sigAt services).inited.reverse.take k).map
            (·.shutdownTime)).sum
          + ((initServices cfg sigAt services).inited.reverse.get ⟨k, hk⟩).shutdownTime) :
    (run cfg sigAt services).err
      = some (.timeoutShutdown
          ((initServices cfg sigAt services).inited.reverse.get ⟨k, hk⟩).name
          cfg.shutdownTimeout)
    ∧ (run cfg sigAt services).shutdownTrace
      = ((initServices cfg sigAt services).inited.reverse.take (k + 1)).map (·.name)
    ∧ (cfg.hasPostShutdown = true →
        (run cfg sigAt services).postShutdownArg = some ((run cfg sigAt services).err)) := by
  have hsl := shutdownLoop_timeout cfg (initServices cfg sigAt services).inited.reverse k hk
      0 [] (by omega) (by omega)
  have hd : (run cfg sigAt services).err
      = (match (initServices cfg sigAt services).err.map RunErr.startupWrap with
         | some e => some e
         | none =>
           (shutdownLoop cfg (initServices cfg sigAt services).inited.reverse 0 []).2)
      := rfl
  have herr : (run cfg sigAt services).err
      = some (.timeoutShutdown
          ((initServices cfg sigAt services).inited.reverse.get ⟨k, hk⟩).name
          cfg.shutdownTimeout) := by
    rw [hd, hinit]
    simp only [Option.map_none']
    exact congrArg Prod.snd hsl
  refine ⟨herr, ?_, ?_⟩
  · have hc : (run cfg sigAt services).shutdownTrace
        = (shutdownLoop cfg (initServices cfg sigAt services).inited.reverse 0 []).1 := rfl
    rw [hc]
    have h1 := congrArg Prod.fst hsl
    simpa using h1
  · intro hps
    have hpa : (run cfg sigAt services).postShutdownArg
        = (if cfg.hasPostShutdown then
            some (shutdownLoop cfg (initServices cfg sigAt services).inited.reverse 0 []).2
           else none) := rfl
    rw [hpa, hps, herr]
    simp only [if_pos]
    exact congrArg (fun o => some o) (congrArg Prod.snd hsl)

/-- Closed witness for `runner_shutdown_timeout`: with a 5-unit budget,
`s2` (2 units) shuts down but `s1` (10 units) times out; `Run` returns the
timeout error, only `s2, s1` were invoked, and `PostShutdown` received the
error. -/
theorem runner_shutdown_timeout_witness :
    (run cfgW 50 svcsW).err = some (.timeoutShutdown "s1" 5)
    ∧ (run cfgW 50 svcsW).shutdownTrace = ["s2", "s1"]
    ∧ (run cfgW 50 svcsW).postShutdownArg = some (some (.timeoutShutdown "s1" 5)) := by
  have h := runner_shutdown_timeout cfgW 50 svcsW 1 rfl (by decide) (by decide) (by decide)
  exact ⟨h.1, h.2.1, h.2.2 rfl⟩

end GoSvc.Run

namespace GoSvc.Prom

/-! ### Theorems about the Prometheus exporter model -/

theorem lookup_tset_self : ∀ (t : List (Str × Str)) (k val : Str),
    List.lookup k (tset t k val) = some val := by
  intro t k val
  induction t with
  | nil => simp [tset, List.lookup]
  | cons p rest ih =>
    obtain ⟨k0, v0⟩ := p
    by_cases h : k0 = k
    · subst h
      simp [tset, List.lookup]
    · have hb : (k == k0) = false := beq_eq_false_iff_ne.2 fun e => h e.symm
      simp [tset, h, List.lookup, hb, ih]

theorem lookup_tset_ne : ∀ (t : List (Str × Str)) (k k' val : Str), k' ≠ k →
    List.lookup k' (tset t k val) = List.lookup k' t := by
  intro t k k' val hne
  induction t with
  | nil =>
    have hb : (k' == k) = false := beq_eq_false_iff_ne.2 hne
    simp [tset, List.lookup, hb]
  | cons p rest ih =>
    obtain ⟨k0, v0⟩ := p
    by_cases h : k0 = k
    · subst h
      have hb : (k' == k0) = false := beq_eq_false_iff_ne.2 hne
      simp [tset, List.lookup, hb]
    · by_cases h2 : k' = k0
      · subst h2
        simp [tset, h, List.lookup]
      · have hb : (k' == k0) = false := beq_eq_false_iff_ne.2 h2
        simp [tset, h, List.lookup, hb, ih]

theorem keys_tset : ∀ (t : List (Str × Str)) (k val : Str),
    (tset t k val).map Prod.fst
      = if k ∈ t.map Prod.fst then t.map Prod.fst else t.map Prod.fst ++ [k] := by
  intro t k val
  induction t with
  | nil => simp [tset]
  | cons p rest ih =>
    obtain ⟨k0, v0⟩ := p
    by_cases h : k0 = k
    · subst h
      simp [tset]
    · have hne : ¬(k = k0) := fun e => h e.symm
      by_cases hm : k ∈ rest.map Prod.fst
      · simp [tset, h, ih, hm, hne]
      · simp [tset, h, ih, hm, hne]

theorem keys_tcol_mem : ∀ (es : List Entry) (t0 : List (Str × Str)) (k : Str),
    k ∈ (tcol es t0).map Prod.fst ↔ k ∈ t0.map Prod.fst ∨ k ∈ es.map bindOf := by
  intro es
  induction es with
  | nil =>
    intro t0 k
    simp [tcol]
  | cons e rest ih =>
    intro t0 k
    rw [show tcol (e :: rest) t0 = tcol rest (tset t0 (bindOf e) (typOf e)) from rfl,
      ih, keys_tset]
    by_cases hb : bindOf e ∈ t0.map Prod.fst
    · rw [if_pos hb]
      simp only [List.map_cons, List.mem_cons]
      constructor
      · rintro (h | h)
        · exact Or.inl h
        · exact Or.inr (Or.inr h)
      · rintro (h | h | h)
        · exact Or.inl h
        · exact Or.inl (h ▸ hb)
        · exact Or.inr h
    · rw [if_neg hb]
      simp only [List.mem_append, List.mem_singleton, List.map_cons, List.mem_cons,
        List.not_mem_nil, or_false]
      constructor
      · rintro ((h | h) | h)
        · exact Or.inl h
        · exact Or.inr (Or.inl h)
        · exact Or.inr (Or.inr h)
      · rintro (h | h | h)
        · exact Or.inl (Or.inl h)
        · exact Or.inl (Or.inr h)
        · exact Or.inr h

theorem keys_tcol_nodup : ∀ (es : List Entry) (t0 : List (Str × Str)),
    (t0.map Prod.fst).Nodup → ((tcol es t0).map Prod.fst).Nodup := by
  intro es
  induction es with
  | nil =>
    intro t0 h
    exact h
  | cons e rest ih =>
    intro t0 h
    refine ih (tset t0 (bindOf e) (typOf e)) ?_
    rw [keys_tset]
    by_cases hb : bindOf e ∈ t0.map Prod.fst
    · rw [if_pos hb]
      exact h
    · rw [if_neg hb]
      simp [List.nodup_append, h, hb]

theorem lookup_tcol_coherent : ∀ (es : List Entry) (t0 : List (Str × Str)) (k ty : Str),
    (∀ e ∈ es, bindOf e = k → typOf e = ty) →
    List.lookup k (tcol es t0) = if k ∈ es.map bindOf then some ty else List.lookup k t0 := by
  intro es
  induction es with
  | nil =>
    intro t0 k ty _
    simp [tcol]
  | cons e rest ih =>
    intro t0 k ty h
    rw [show tcol (e :: rest) t0 = tcol rest (tset t0 (bindOf e) (typOf e)) from rfl,
      ih (tset t0 (bindOf e) (typOf e)) k ty fun e' he' hb => h e' (List.mem_cons_of_mem _ he') hb]
    by_cases hm : k ∈ rest.map bindOf
    · rw [if_pos hm, if_pos (by simp only [List.map_cons, List.mem_cons]; exact Or.inr hm)]
    · rw [if_neg hm]
      by_cases hbk : bindOf e = k
      · rw [hbk, lookup_tset_self,
          if_pos (by rw [List.map_cons, ← hbk]; exact List.mem_cons_self _ _)]
        exact congrArg some (h e (List.mem_cons_self e rest) hbk)
      · have hnm : k ∉ (e :: rest).map bindOf := by
          simp only [List.map_cons, List.mem_cons]
          push_neg
          exact ⟨fun e' => hbk e'.symm, hm⟩
        rw [lookup_tset_ne t0 (bindOf e) k (typOf e) fun e' => hbk e'.symm, if_neg hnm]

theorem vget_vadd_self : ∀ (v : List (Str × List (Str × Str))) (k : Str) (pr : Str × Str),
    vget (vadd v k pr) k = vget v k ++ [pr] := by
  intro v k pr
  induction v with
  | nil => simp [vadd, vget, List.lookup]
  | cons p rest ih =>
    obtain ⟨k0, l0⟩ := p
    by_cases h : k0 = k
    · subst h
      simp [vadd, vget, List.lookup]
    · have hb : (k == k0) = false := beq_eq_false_iff_ne.2 fun e => h e.symm
      simp [vadd, h, vget, List.lookup, hb] at ih ⊢
      exact ih

theorem vget_vadd_ne : ∀ (v : List (Str × List (Str × Str))) (k k' : Str) (pr : Str × Str),
    k' ≠ k → vget (vadd v k pr) k' = vget v k' := by
  intro v k k' pr hne
  induction v with
  | nil =>
    have hb : (k' == k) = false := beq_eq_false_iff_ne.2 hne
    simp [vadd, vget, List.lookup, hb]
  | cons p rest ih =>
    obtain ⟨k0, l0⟩ := p
    by_cases h : k0 = k
    · subst h
      have hb : (k' == k0) = false := beq_eq_false_iff_ne.2 hne
      simp [vadd, vget, List.lookup, hb]
    · by_cases h2 : k' = k0
      · subst h2
        simp [vadd, h, vget, List.lookup]
      · have hb : (k' == k0) = false := beq_eq_false_iff_ne.2 h2
        simp [vadd, h, vget, List.lookup, hb] at ih ⊢
        exact ih

theorem vget_vcol (nl : Str) : ∀ (es : List Entry) (v0 : List (Str × List (Str × Str)))
    (k : Str),
    vget (vcol nl es v0) k
      = vget v0 k ++ (es.filter fun e => bindOf e == k).map (pairOf nl) := by
  intro es
  induction es with
  | nil =>
    intro v0 k
    simp [vcol]
  | cons e rest ih =>
    intro v0 k
    rw [show vcol nl (e :: rest) v0 = vcol nl rest (vadd v0 (bindOf e) (pairOf nl e)) from rfl,
      ih]
    by_cases hb : bindOf e = k
    · subst hb
      rw [vget_vadd_self]
      simp [List.filter_cons]
    · have hbne : (bindOf e == k) = false := beq_eq_false_iff_ne.2 hb
      rw [vget_vadd_ne v0 (bindOf e) k (pairOf nl e) fun e' => hb e'.symm]
      simp [List.filter_cons, hbne]

theorem valuesSize_vadd : ∀ (v : List (Str × List (Str × Str))) (k : Str) (pr : Str × Str),
    valuesSize (vadd v k pr) = valuesSize v + 1 := by
  intro v k pr
  induction v with
  | nil => simp [vadd, valuesSize]
  | cons p rest ih =>
    obtain ⟨k0, l0⟩ := p
    by_cases h : k0 = k
    · subst h
      simp [vadd, valuesSize]
      omega
    · simp [vadd, h, valuesSize] at ih ⊢
      omega

theorem valuesSize_vcol (nl : Str) : ∀ (es : List Entry) (v0 : List (Str × List (Str × Str))),
    valuesSize (vcol nl es v0) = valuesSize v0 + es.length := by
  intro es
  induction es with
  | nil =>
    intro v0
    simp [vcol]
  | cons e rest ih =>
    intro v0
    rw [show vcol nl (e :: rest) v0 = vcol nl rest (vadd v0 (bindOf e) (pairOf nl e)) from rfl,
      ih, valuesSize_vadd]
    simp
    omega

theorem failures_perm {es1 es2 : List Entry} (h : es1.Perm es2) :
    (failures es1).Perm (failures es2) := by
  rw [failures, failures, List.flatMap_def, List.flatMap_def]
  exact (h.map failsOf).flatten

theorem eq_of_perm_sorted_keys :
    ∀ (l1 l2 : List (Str × Str)), l1.Perm l2 →
    List.Pairwise pairLe l1 → List.Pairwise pairLe l2 →
    (l1.map Prod.fst).Nodup → l1 = l2 := by
  intro l1
  induction l1 with
  | nil =>
    intro l2 hp _ _ _
    exact hp.nil_eq
  | cons a t1 ih =>
    intro l2 hp hs1 hs2 hnd
    cases l2 with
    | nil => exact absurd hp.eq_nil (by simp)
    | cons b t2 =>
      have hab : a = b := by
        by_cases h : a = b
        · exact h
        · exfalso
          have ha2 : a ∈ b :: t2 := hp.mem_iff.1 (List.mem_cons_self a t1)
          have hb1 : b ∈ a :: t1 := hp.mem_iff.2 (List.mem_cons_self b t2)
          have ha2' : a ∈ t2 := by
            rcases List.mem_cons.1 ha2 with hh | hh
            · exact absurd hh h
            · exact hh
          have hb1' : b ∈ t1 := by
            rcases List.mem_cons.1 hb1 with hh | hh
            · exact absurd hh.symm h
            · exact hh
          have h1 : pairLe a b := (List.pairwise_cons.1 hs1).1 b hb1'
          have h2 : pairLe b a := (List.pairwise_cons.1 hs2).1 a ha2'
          have hk : a.1 = b.1 := lexLe_antisymm h1 h2
          have hmem : a.1 ∈ t1.map Prod.fst := by
            rw [hk]
            exact List.mem_map_of_mem Prod.fst hb1'
          have hnd' := List.nodup_cons.1 (show (a.1 :: t1.map Prod.fst).Nodup from by
            simpa using hnd)
          exact absurd hmem hnd'.1
      subst hab
      have hrec := ih t2 hp.cons_inv (List.pairwise_cons.1 hs1).2 (List.pairwise_cons.1 hs2).2
        (List.nodup_cons.1 (show (a.1 :: t1.map Prod.fst).Nodup from by simpa using hnd)).2
      exact congrArg (List.cons a) hrec

theorem valuesSize_foldl_vadd (k : Str) (f : Str × Int → Str × Str) :
    ∀ (l : List (Str × Int)) (v : List (Str × List (Str × Str))),
    valuesSize (l.foldl (fun v pr => vadd v k (f pr)) v) = valuesSize v + l.length := by
  intro l
  induction l with
  | nil =>
    intro v
    simp
  | cons pr rest ih =>
    intro v
    rw [List.foldl_cons, ih, valuesSize_vadd]
    simp only [List.length_cons]
    omega

theorem valuesSize_addGaugeE (nl : Str)
    (tv : List (Str × Str) × List (Str × List (Str × Str))) (bind labels val : Str) :
    valuesSize (addGaugeE nl tv bind labels val).2 = valuesSize tv.2 + 1 := by
  simp [addGaugeE, valuesSize_vadd]

theorem valuesSize_addSummaryE (nl : Str)
    (tv : List (Str × Str) × List (Str × List (Str × Str)))
    (name labels : Str) (sn : SamplerData) :
    valuesSize (addSummaryE nl tv name labels sn).2 = valuesSize tv.2 + 11 := by
  simp only [addSummaryE, addGaugeE, valuesSize_vadd]

theorem valuesSize_addBucketsE (nl : Str)
    (tv : List (Str × Str) × List (Str × List (Str × Str)))
    (name labels : Str) (bd : BucketsData) :
    valuesSize (addBucketsE nl tv name labels bd).2
      = valuesSize tv.2 + (bd.bucketVals.length + 3) := by
  simp only [addBucketsE, valuesSize_vadd, valuesSize_foldl_vadd]
  omega

theorem valuesSize_updateEntryE (nl : Str)
    (tv : List (Str × Str) × List (Str × List (Str × Str))) (e : EntryE) :
    valuesSize (updateEntryE nl tv e).2 = valuesSize tv.2 + samplesOf e := by
  obtain ⟨raw, m⟩ := e
  cases m with
  | counter n => simp [updateEntryE, addCounterE, samplesOf, valuesSize_vadd]
  | meter n => simp [updateEntryE, addCounterE, samplesOf, valuesSize_vadd]
  | gauge n => simp [updateEntryE, samplesOf, valuesSize_addGaugeE]
  | gaugeF v => simp [updateEntryE, samplesOf, valuesSize_addGaugeE]
  | healthcheck he => simp [updateEntryE, samplesOf, valuesSize_addGaugeE]
  | histogram b sn =>
    cases b with
    | none =>
      by_cases hc : 0 < sn.count
      · simp only [updateEntryE, samplesOf, if_pos hc, valuesSize_addSummaryE]
      · simp only [updateEntryE, samplesOf, if_neg hc]
        omega
    | some bd =>
      by_cases hc : 0 < sn.count
      · simp only [updateEntryE, samplesOf, if_pos hc, valuesSize_addSummaryE,
          valuesSize_addBucketsE]
        omega
      · simp only [updateEntryE, samplesOf, if_neg hc, valuesSize_addBucketsE]
  | timer sn =>
    by_cases hc : sn.count = 0
    · simp only [updateEntryE, samplesOf, if_pos hc]
      omega
    · simp only [updateEntryE, samplesOf, if_neg hc, valuesSize_addSummaryE]

theorem valuesSize_collectE (nl : Str) :
    ∀ (es : List EntryE) (tv : List (Str × Str) × List (Str × List (Str × Str))),
    valuesSize (collectE nl es tv).2 = valuesSize tv.2 + (es.map samplesOf).sum := by
  intro es
  induction es with
  | nil =>
    intro tv
    simp [collectE]
  | cons e rest ih =>
    intro tv
    rw [show collectE nl (e :: rest) tv = collectE nl rest (updateEntryE nl tv e) from rfl,
      ih, valuesSize_updateEntryE]
    simp only [List.map_cons, List.sum_cons]
    omega

/-- C5 counterexample: a metric whose composite name fails validation is
NOT dropped from the normal exposition output — it is exported under the
empty sanitised name (`_total` block with a sample line), in addition to
its `# ERROR` line, so the output is strictly more than the error lines. -/
theorem prom_error_metric_counterexample :
    (updateE nl0 esBadNameE).1
      = strOf "# ERROR bad metric name \"app_c!\" in metric \"app c!\"\n\n# TYPE _total counter\n_total\x7bservice=\"test\"\x7d 5\n"
    ∧ strContains (updateE nl0 esBadNameE).1 (strOf "_total\x7bservice=\"test\"\x7d 5\n") = true
    ∧ (updateE nl0 esBadNameE).1
      ≠ ((List.insertionSort strLeRel (failuresE esBadNameE)).map errLineOf).flatten := by
  refine ⟨by decide, by decide, by decide⟩

/-- C5 (amended): over the full switch, failures surface as `# ERROR`
lines over the sorted failure list and make `Update` return a non-nil
error listing the sorted failures, while every registry entry still
contributes exactly the sample count of its switch case (`samplesOf`):
the scalar kinds — failing or not — are always exported with whatever
name and labels `extractSignature` returned, and only an entry whose case
reaches no `addV` at all (a zero-count timer, or an unbucketed zero-count
histogram) is absent from the exposition. -/
theorem prom_update_failures_amended (nl : Str) (es : List EntryE) :
    ((updateE nl es).2 = none ↔ failuresE es = [])
    ∧ (failuresE es ≠ [] →
        (updateE nl es).2 = some ('[' ::
          (List.intercalate [' '] (List.insertionSort strLeRel (failuresE es)) ++ [']'])))
    ∧ (∀ f ∈ failuresE es, errLineOf f <:+: (updateE nl es).1)
    ∧ valuesSize (collectE nl es ([], [])).2 = (es.map samplesOf).sum := by
  have h2 : (updateE nl es).2 = if (failuresE es).isEmpty then none
      else some ('[' ::
        (List.intercalate [' '] (List.insertionSort strLeRel (failuresE es)) ++ [']'])) := rfl
  have h1 : (updateE nl es).1
      = ((List.insertionSort strLeRel (failuresE es)).map errLineOf).flatten
        ++ ((List.insertionSort strLeRel ((collectE nl es ([], [])).1.map Prod.fst)).map
            (blockOf (collectE nl es ([], [])).1 (collectE nl es ([], [])).2)).flatten := rfl
  refine ⟨?_, ?_, ?_, ?_⟩
  · rw [h2]
    cases hf : failuresE es with
    | nil => simp
    | cons a l => simp
  · intro hne
    rw [h2, if_neg (by simp [List.isEmpty_iff, hne])]
  · intro f hf
    rw [h1]
    have hf' : f ∈ List.insertionSort strLeRel (failuresE es) :=
      (List.perm_insertionSort strLeRel (failuresE es)).mem_iff.2 hf
    have hline : errLineOf f ∈ (List.insertionSort strLeRel (failuresE es)).map errLineOf :=
      List.mem_map_of_mem errLineOf hf'
    exact (List.infix_of_mem_flatten hline).trans (List.prefix_append _ _).isInfix
  · exact (valuesSize_collectE nl es ([], [])).trans (by simp [valuesSize])

/-- Closed witness for `prom_update_failures_amended` on a registry with a
bad-label-value counter, a valid gauge and a zero-count timer: the
non-nil error lists the failure, the failure's `# ERROR` line is in the
output, and the sample count is two — the failing counter and the gauge
are exported, the zero-count timer contributes nothing. -/
theorem prom_update_failures_amended_witness :
    (updateE nl0 esMixedE).2
      = some (strOf "[1 error occurred:\n\t* bad label value \"l=x!\" in metric \"app,l=x! c\"\n\n]")
    ∧ errLineOf (strOf "1 error occurred:\n\t* bad label value \"l=x!\" in metric \"app,l=x! c\"\n\n")
        <:+: (updateE nl0 esMixedE).1
    ∧ valuesSize (collectE nl0 esMixedE ([], [])).2 = (esMixedE.map samplesOf).sum
    ∧ (esMixedE.map samplesOf).sum = 2 := by
  have h := prom_update_failures_amended nl0 esMixedE
  exact ⟨(h.2.1 (by decide)).trans (by decide), h.2.2.1 _ (by decide), h.2.2.2, by decide⟩

/-- C6 counterexample: two iteration orders of the same registry content
(two counters whose sanitised fullnames collide) produce different output
bytes — the per-block sort cannot separate tied fullnames, so the
iteration order of the registry leaks into the output. -/
theorem prom_update_determinism_counterexample :
    esTieA.Perm esTieB ∧ (update nl0 esTieA).1 ≠ (update nl0 esTieB).1 := by
  refine ⟨by decide, by decide⟩

/-- C6 (amended): the output is byte-identical across registry iteration
orders provided the sanitised fullnames within each type block are
pairwise distinct (entries of equal bind never collide on fullname) and
entries sharing a bind agree on the metric type — then error lines, block
names and samples within a block are each fully determined by the sort. -/
theorem prom_update_permutation_invariant (nl : Str) (es1 es2 : List Entry)
    (hperm : es1.Perm es2) (hnd : es1.Nodup)
    (hfn : ∀ e ∈ es1, ∀ e' ∈ es1, e ≠ e' → bindOf e = bindOf e' →
        (pairOf nl e).1 ≠ (pairOf nl e').1)
    (hty : ∀ e ∈ es1, ∀ e' ∈ es1, bindOf e = bindOf e' → typOf e = typOf e') :
    update nl es1 = update nl es2 := by
  have hfp : (failures es1).Perm (failures es2) := failures_perm hperm
  have hsortf : List.insertionSort strLeRel (failures es1)
      = List.insertionSort strLeRel (failures es2) := by
    refine List.eq_of_perm_of_sorted ?_ (List.sorted_insertionSort _ _)
      (List.sorted_insertionSort _ _)
    exact (List.perm_insertionSort _ _).trans (hfp.trans (List.perm_insertionSort _ _).symm)
  have hie : (failures es1).isEmpty = (failures es2).isEmpty := by
    cases hc : failures es1 with
    | nil =>
      have h0 := hfp
      rw [hc] at h0
      have h2 : failures es2 = [] := h0.symm.eq_nil
      rw [h2]
    | cons a l =>
      cases hc2 : failures es2 with
      | nil =>
        exfalso
        have h0 := hfp
        rw [hc, hc2] at h0
        exact absurd h0.eq_nil (by simp)
      | cons b m => rfl
  have hknd1 : ((tcol es1 []).map Prod.fst).Nodup := keys_tcol_nodup es1 [] (by simp)
  have hknd2 : ((tcol es2 []).map Prod.fst).Nodup := keys_tcol_nodup es2 [] (by simp)
  have hkperm : ((tcol es1 []).map Prod.fst).Perm ((tcol es2 []).map Prod.fst) := by
    refine (List.perm_ext_iff_of_nodup hknd1 hknd2).2 ?_
    intro k
    rw [keys_tcol_mem, keys_tcol_mem]
    constructor
    · rintro (h | h)
      · simp at h
      · exact Or.inr ((hperm.map bindOf).mem_iff.1 h)
    · rintro (h | h)
      · simp at h
      · exact Or.inr ((hperm.map bindOf).mem_iff.2 h)
  have hnames : List.insertionSort strLeRel ((tcol es1 []).map Prod.fst)
      = List.insertionSort strLeRel ((tcol es2 []).map Prod.fst) :=
    List.eq_of_perm_of_sorted
      ((List.perm_insertionSort _ _).trans (hkperm.trans (List.perm_insertionSort _ _).symm))
      (List.sorted_insertionSort _ _) (List.sorted_insertionSort _ _)
  have hblock : ∀ k ∈ (tcol es2 []).map Prod.fst,
      blockOf (tcol es1 []) (vcol nl es1 []) k
        = blockOf (tcol es2 []) (vcol nl es2 []) k := by
    intro k hk2
    have hkbind2 : k ∈ es2.map bindOf := by
      rcases (keys_tcol_mem es2 [] k).1 hk2 with h | h
      · simp at h
      · exact h
    have hkbind1 : k ∈ es1.map bindOf := (hperm.map bindOf).mem_iff.2 hkbind2
    obtain ⟨e0, he0, hbe0⟩ := List.mem_map.1 hkbind1
    have hco1 : ∀ e ∈ es1, bindOf e = k → typOf e = typOf e0 := fun e he hb =>
      hty e he e0 he0 (hb.trans hbe0.symm)
    have hco2 : ∀ e ∈ es2, bindOf e = k → typOf e = typOf e0 := fun e he hb =>
      hco1 e (hperm.mem_iff.2 he) hb
    have ht1 : List.lookup k (tcol es1 []) = some (typOf e0) := by
      rw [lookup_tcol_coherent es1 [] k (typOf e0) hco1, if_pos hkbind1]
    have ht2 : List.lookup k (tcol es2 []) = some (typOf e0) := by
      rw [lookup_tcol_coherent es2 [] k (typOf e0) hco2, if_pos hkbind2]
    have hv1 : vget (vcol nl es1 []) k
        = (es1.filter fun e => bindOf e == k).map (pairOf nl) := by
      rw [vget_vcol nl es1 [] k]
      simp [vget, List.lookup]
    have hv2 : vget (vcol nl es2 []) k
        = (es2.filter fun e => bindOf e == k).map (pairOf nl) := by
      rw [vget_vcol nl es2 [] k]
      simp [vget, List.lookup]
    have hvperm : ((es1.filter fun e => bindOf e == k).map (pairOf nl)).Perm
        ((es2.filter fun e => bindOf e == k).map (pairOf nl)) :=
      (hperm.filter _).map _
    have hfnd : (((es1.filter fun e => bindOf e == k).map (pairOf nl)).map Prod.fst).Nodup := by
      rw [List.map_map]
      refine List.pairwise_map.2 ?_
      have hnf : (es1.filter fun e => bindOf e == k).Nodup := hnd.filter _
      refine List.Pairwise.imp_of_mem ?_ hnf
      intro a b ha hb hab
      obtain ⟨ha1, hak⟩ := List.mem_filter.1 ha
      obtain ⟨hb1, hbk⟩ := List.mem_filter.1 hb
      exact hfn a ha1 b hb1 hab ((beq_iff_eq.1 hak).trans (beq_iff_eq.1 hbk).symm)
    have hsorted : List.insertionSort pairLe (vget (vcol nl es1 []) k)
        = List.insertionSort pairLe (vget (vcol nl es2 []) k) := by
      rw [hv1, hv2]
      refine eq_of_perm_sorted_keys _ _ ?_ ?_ ?_ ?_
      · exact (List.perm_insertionSort _ _).trans
          (hvperm.trans (List.perm_insertionSort _ _).symm)
      · exact List.sorted_insertionSort _ _
      · exact List.sorted_insertionSort _ _
      · exact (((List.perm_insertionSort pairLe _).map Prod.fst).nodup_iff).2 hfnd
    simp only [blockOf, tget]
    rw [hsorted, ht1, ht2]
  refine Prod.ext ?_ ?_
  · have ha1 : (update nl es1).1
        = ((List.insertionSort strLeRel (failures es1)).map errLineOf).flatten
          ++ ((List.insertionSort strLeRel ((tcol es1 []).map Prod.fst)).map
              (blockOf (tcol es1 []) (vcol nl es1 []))).flatten := rfl
    have ha2 : (update nl es2).1
        = ((List.insertionSort strLeRel (failures es2)).map errLineOf).flatten
          ++ ((List.insertionSort strLeRel ((tcol es2 []).map Prod.fst)).map
              (blockOf (tcol es2 []) (vcol nl es2 []))).flatten := rfl
    rw [ha1, ha2, hsortf, hnames]
    have hmaps : (List.insertionSort strLeRel ((tcol es2 []).map Prod.fst)).map
          (blockOf (tcol es1 []) (vcol nl es1 []))
        = (List.insertionSort strLeRel ((tcol es2 []).map Prod.fst)).map
          (blockOf (tcol es2 []) (vcol nl es2 [])) :=
      List.map_congr_left fun k hk =>
        hblock k ((List.perm_insertionSort _ _).mem_iff.1 hk)
    rw [hmaps]
  · have hb1 : (update nl es1).2 = if (failures es1).isEmpty then none
        else some ('[' ::
          (List.intercalate [' '] (List.insertionSort strLeRel (failures es1)) ++ [']'])) := rfl
    have hb2 : (update nl es2).2 = if (failures es2).isEmpty then none
        else some ('[' ::
          (List.intercalate [' '] (List.insertionSort strLeRel (failures es2)) ++ [']'])) := rfl
    rw [hb1, hb2, hie, hsortf]

/-- Closed witness for `prom_update_permutation_invariant`: a two-metric
registry with distinct fullnames gives identical bytes in both iteration
orders. -/
theorem prom_update_permutation_invariant_witness :
    update nl0 esOkA = update nl0 esOkB :=
  prom_update_permutation_invariant nl0 esOkA esOkB (by decide) (by decide)
    (by decide) (by decide)

end GoSvc.Prom
